import Mathlib

/-!
# Audience Network adapter (`adapters/audienceNetwork/facebook.go`)

A shallow embedding of the three functions of the adapter,
`extractPlmtAndPub`, `MakeRequests` and `MakeBids`, followed by theorems about them.

Conventions of the embedding.

* Go `string` values are Lean `String`s.  Every string the adapter inspects comes out of
  `encoding/json`, which only produces valid UTF-8, and the only separator it looks for is
  the ASCII byte `_`, so splitting on characters and splitting on bytes agree.
* A Go pointer that is only read or copied (`*openrtb.App`, `*openrtb.Site`,
  `*openrtb.Publisher`) is an `Option`; `none` is the nil pointer.
* `json.RawMessage` is `Option String`; `none` is the nil slice.
* `encoding/json` is not part of the adapter.  Its five uses are the fields of `Json`,
  each a function that may fail.
* The structures of the `openrtb` library have many fields the adapter never names.  They
  are kept, as a whole, in the field `rest` of each structure.
* `MakeRequests` dereferences `fbreq.Site` without a nil check; a nil dereference is the
  outcome `none` of the embedding.
* `MakeBids` stores the address of its loop variable.  The variables of the function live in
  an explicit store (`List Bid`, an address is an index) and the entries of the result hold
  addresses.  The loop follows the language as it was when the adapter was written (before
  Go 1.22): a `for ... range` statement declares its variable once per execution of the
  statement, not once per iteration.
-/

namespace AudienceNetwork

/-! ## Errors -/

/-- A Go `error` value as the adapter sees it: either `*errortypes.BadInput`, or an error
made by `encoding/json`, of which only the text is observable. -/
inductive GoError where
  | BadInput (Message : String)
  | jsonError (text : String)
deriving DecidableEq, Repr

/-- The method `Error()`: `BadInput` answers its message. -/
def GoError.Error : GoError → String
  | .BadInput m => m
  | .jsonError t => t

/-- Whether the dynamic type of the error is `*errortypes.BadInput`. -/
def GoError.isBadInput : GoError → Bool
  | .BadInput _ => true
  | .jsonError _ => false

deriving instance DecidableEq for Except

/-! ## Data model -/

/-- Fields of a library structure that the adapter never names: field name and value. -/
abbrev Fields := List (String × String)

/-- The type `json.RawMessage`; `none` is nil. -/
abbrev RawMessage := Option String

/-- The type `openrtb.Publisher`. -/
structure Publisher where
  ID : String
  rest : Fields
deriving DecidableEq, Repr

/-- The type `openrtb.App`. -/
structure App where
  Publisher : Option Publisher
  rest : Fields
deriving DecidableEq, Repr

/-- The type `openrtb.Site`. -/
structure Site where
  Publisher : Option Publisher
  rest : Fields
deriving DecidableEq, Repr

/-- The type `openrtb.Imp`. -/
structure Imp where
  TagID : String
  Ext : RawMessage
  rest : Fields
deriving DecidableEq, Repr

/-- The type `openrtb.BidRequest`. -/
structure BidRequest where
  Imp : List Imp
  Site : Option Site
  App : Option App
  Ext : RawMessage
  rest : Fields
deriving DecidableEq, Repr

/-- The type `adapters.ExtImpBidder`: the envelope around the bidder's own parameters. -/
structure ExtImpBidder where
  Bidder : RawMessage
deriving DecidableEq, Repr

/-- The type `openrtb_ext.ExtImpFacebook`. -/
structure ExtImpFacebook where
  PlacementId : String
  PublisherId : String
deriving DecidableEq, Repr

/-- The type `facebookReqExt` (source line 31). -/
structure facebookReqExt where
  PlatformId : String
deriving DecidableEq, Repr

/-- The type `openrtb.Bid`. -/
structure Bid where
  ID : String
  ImpID : String
  rest : Fields
deriving DecidableEq, Repr

/-- The type `openrtb.SeatBid`. -/
structure SeatBid where
  Bid : List Bid
  rest : Fields
deriving DecidableEq, Repr

/-- The type `openrtb.BidResponse`. -/
structure BidResponse where
  SeatBid : List SeatBid
  rest : Fields
deriving DecidableEq, Repr

/-- The uses the adapter makes of `encoding/json`.  A failure is the text of the error. -/
structure Json where
  /-- The call `json.Unmarshal(out.Ext, &bidderExt)`, line 110. -/
  unmarshalExtImpBidder : RawMessage → Except String ExtImpBidder
  /-- The call `json.Unmarshal(bidderExt.Bidder, &fbExt)`, line 117. -/
  unmarshalExtImpFacebook : RawMessage → Except String ExtImpFacebook
  /-- The call `json.Marshal(reqExt)`, line 65. -/
  marshalReqExt : facebookReqExt → Except String String
  /-- The call `json.Marshal(&fbreq)`, line 84. -/
  marshalBidRequest : BidRequest → Except String String
  /-- The call `json.Unmarshal(response.Body, &bidResp)`, line 167. -/
  unmarshalBidResponse : String → Except String BidResponse

/-! ## `strings.Split` -/

/-- Cut a character sequence at every occurrence of `sep`.  The result has one more piece
than there are occurrences; the empty sequence gives one empty piece. -/
def splitChars (sep : Char) : List Char → List (List Char)
  | [] => [[]]
  | c :: cs =>
    if c = sep then [] :: splitChars sep cs
    else
      match splitChars sep cs with
      | [] => [[c]]
      | t :: ts => (c :: t) :: ts

/-- The call `strings.Split(s, "_")` of line 137. -/
def stringsSplitUnderscore (s : String) : List String :=
  (splitChars '_' s.data).map String.mk

/-! ## `extractPlmtAndPub` (lines 108-156) -/

/-- The method `extractPlmtAndPub`.  The result is `(placementId, publisherId)` or the
error; on an error Go also returns two empty strings, which no caller reads. -/
def extractPlmtAndPub (J : Json) (out : Imp) : Except GoError (String × String) :=
  match J.unmarshalExtImpBidder out.Ext with
  | .error msg => .error (.BadInput msg)
  | .ok bidderExt =>
    match J.unmarshalExtImpFacebook bidderExt.Bidder with
    | .error msg => .error (.BadInput msg)
    | .ok fbExt =>
      if fbExt.PlacementId = "" then
        .error (.BadInput "Missing placementId param")
      else
        let placementId := fbExt.PlacementId
        let publisherId := fbExt.PublisherId
        let toks := stringsSplitUnderscore placementId
        match toks with
        | [_] =>
          if publisherId = "" then
            .error (.BadInput "Missing publisherId param")
          else
            .ok (placementId, publisherId)
        | [tok0, tok1] => .ok (tok1, tok0)
        | _ =>
          .error (.BadInput ("Invalid placementId param '" ++ placementId ++
            "' and publisherId param '" ++ publisherId ++ "'"))

/-! ## `net/http` headers -/

/-- The function `textproto.CanonicalMIMEHeaderKey` on a key made of letters, digits and
hyphens, which the three keys of this adapter are: the first letter and every letter after
a hyphen in upper case, every other letter in lower case. -/
def canonicalKeyChars (upper : Bool) : List Char → List Char
  | [] => []
  | c :: cs => (if upper then c.toUpper else c.toLower) :: canonicalKeyChars (c = '-') cs

/-- See `canonicalKeyChars`. -/
def canonicalMIMEHeaderKey (key : String) : String :=
  String.mk (canonicalKeyChars true key.data)

/-- The type `http.Header`, a map from canonical keys to their values. -/
structure Header where
  entries : List (String × List String)
deriving DecidableEq, Repr

/-- The method `Header.Get`: the first value stored under the canonical form of the key, the
empty string when there is none. -/
def Header.Get (h : Header) (key : String) : String :=
  match h.entries.lookup (canonicalMIMEHeaderKey key) with
  | some (v :: _) => v
  | _ => ""

/-- Append a value under a key that is already canonical. -/
def addEntry (k v : String) : List (String × List String) → List (String × List String)
  | [] => [(k, [v])]
  | (k', vs) :: es => if k' = k then (k', vs ++ [v]) :: es else (k', vs) :: addEntry k v es

/-- The method `Header.Add`: append the value to those of the canonical key. -/
def Header.Add (h : Header) (key value : String) : Header :=
  ⟨addEntry (canonicalMIMEHeaderKey key) value h.entries⟩

/-- The type `adapters.RequestData`. -/
structure RequestData where
  Method : String
  Uri : String
  Body : String
  Headers : Header
deriving DecidableEq, Repr

/-- The type `adapters.ResponseData`. -/
structure ResponseData where
  StatusCode : Int
  Body : String
  Headers : Header
deriving DecidableEq, Repr

/-- The type `FacebookAdapter` (line 15) without its HTTP client, which none of the three
functions uses. -/
structure FacebookAdapter where
  URI : String
  nonSecureUri : String
  platformId : String
deriving DecidableEq, Repr

/-! ## `MakeRequests` (lines 35-106) -/

/-- The headers built at lines 48-51. -/
def requestHeaders : Header :=
  ((Header.mk []).Add "Content-Type" "application/json;charset=utf-8").Add
    "Accept" "application/json"

/-- Lines 74-82: put the publisher into the copy of `App` when there is an `App`, into the
copy of `Site` otherwise.  `none` is the nil dereference `*fbreq.Site` of line 79. -/
def injectPublisher (fbreq : BidRequest) (pubId : String) : Option BidRequest :=
  match fbreq.App with
  | some app => some { fbreq with App := some { app with Publisher := some ⟨pubId, []⟩ } }
  | none =>
    match fbreq.Site with
    | some site => some { fbreq with Site := some { site with Publisher := some ⟨pubId, []⟩ } }
    | none => none

/-- Lines 56 and 65-82 for one impression whose identifiers were extracted: the copy
`fbreq` of the request as it stands when it is serialized at line 84.  `ext` is the result
of `json.Marshal(reqExt)`. -/
def perImpRequest (request : BidRequest) (ext : String) (imp : Imp)
    (plmtId pubId : String) : Option BidRequest :=
  let fbreq := request
  let fbreq := { fbreq with Ext := some ext }
  let imp := { imp with TagID := pubId ++ "_" ++ plmtId }
  let imp := { imp with Ext := none }
  let fbreq := { fbreq with Imp := [imp] }
  injectPublisher fbreq pubId

/-- The loop of lines 53-96 followed by lines 98-105.  `reqs` and `errs` are the two slices
as they stand before the impressions still to be visited.  `none` is a nil dereference. -/
def makeRequestsLoop (this : FacebookAdapter) (J : Json) (request : BidRequest)
    (headers : Header) :
    List Imp → List RequestData → List GoError → Option (List RequestData × List GoError)
  | [], reqs, errs =>
    if reqs.length = 0 then
      some ([], errs ++ [.BadInput "no valid impressions provided"])
    else
      some (reqs, errs)
  | imp :: imps, reqs, errs =>
    match extractPlmtAndPub J imp with
    | .error err => makeRequestsLoop this J request headers imps reqs (errs ++ [err])
    | .ok (plmtId, pubId) =>
      let reqExt : facebookReqExt := ⟨this.platformId⟩
      match J.marshalReqExt reqExt with
      | .error msg =>
        makeRequestsLoop this J request headers imps reqs (errs ++ [.jsonError msg])
      | .ok ext =>
        match perImpRequest request ext imp plmtId pubId with
        | none => none
        | some fbreq =>
          match J.marshalBidRequest fbreq with
          | .error msg => some ([], errs ++ [.jsonError msg])
          | .ok body =>
            makeRequestsLoop this J request headers imps
              (reqs ++ [⟨"POST", this.URI, body, headers⟩]) errs

/-- The method `MakeRequests`: the requests and the errors it returns, `none` when it stops
on a nil dereference.  A nil slice of requests is the empty list. -/
def MakeRequests (this : FacebookAdapter) (J : Json) (request : BidRequest) :
    Option (List RequestData × List GoError) :=
  if request.Imp.length = 0 then
    some ([], [.BadInput "no impressions provided"])
  else
    makeRequestsLoop this J request requestHeaders request.Imp [] []

/-! ## `MakeRequests` over an explicit memory

The same function once more, with the pointers and the slice of the inbound request kept as
addresses into a memory, so that a write through one of them would be seen by every other
holder of the address.  Every assignment of the source is an assignment to a local variable
(`fbreq`, `imp`, `app`, `site`); the locals whose address is taken, and the slice literal of
line 72, are new cells of the memory. -/

/-- The value of an `openrtb.BidRequest` as Go holds it: `Imp` is a slice, given by the
address of its backing array, which it spans; `Site` and `App` are pointers, `none` is
nil. -/
structure BidRequestRef where
  Imp : Nat
  Site : Option Nat
  App : Option Nat
  Ext : RawMessage
  rest : Fields
deriving DecidableEq, Repr

/-- The memory: the `BidRequest` values, the `App` values, the `Site` values and the backing
arrays of impressions that addresses refer to.  An address is an index into the list of its
kind. -/
structure Memory where
  requests : List BidRequestRef
  apps : List App
  sites : List Site
  impArrays : List (List Imp)
deriving DecidableEq, Repr

/-- Follow a pointer that may be nil; the outer `none` is an address that is not in the
memory. -/
def loadPtr {α : Type} (cells : List α) : Option Nat → Option (Option α)
  | none => some none
  | some a =>
    match cells[a]? with
    | none => none
    | some v => some (some v)

/-- The request a `BidRequestRef` stands for, with everything it points to read from the
memory: what `json.Marshal` sees. -/
def Memory.load (mem : Memory) (r : BidRequestRef) : Option BidRequest :=
  match mem.impArrays[r.Imp]?, loadPtr mem.sites r.Site, loadPtr mem.apps r.App with
  | some imps, some site, some app => some ⟨imps, site, app, r.Ext, r.rest⟩
  | _, _, _ => none

/-- Lines 74-82 over the memory.  The local `app` (or `site`) is a copy of the value the
pointer refers to; its address is taken, so it is a new cell, and the pointer in `fbreq` is
set to that cell.  `none` is the nil dereference of line 79, or an address that is not in
the memory. -/
def injectPublisherMem (mem : Memory) (fbreq : BidRequestRef) (pubId : String) :
    Option (Memory × BidRequestRef) :=
  match fbreq.App with
  | some a =>
    match mem.apps[a]? with
    | none => none
    | some app =>
      let app := { app with Publisher := some ⟨pubId, []⟩ }
      some ({ mem with apps := mem.apps ++ [app] }, { fbreq with App := some mem.apps.length })
  | none =>
    match fbreq.Site with
    | none => none
    | some a =>
      match mem.sites[a]? with
      | none => none
      | some site =>
        let site := { site with Publisher := some ⟨pubId, []⟩ }
        some ({ mem with sites := mem.sites ++ [site] },
          { fbreq with Site := some mem.sites.length })

/-- Lines 65-82 over the memory, for the local copy `fbreq` of the request and the local
copy `imp` of the impression.  The slice literal of line 72 is a new backing array. -/
def perImpRequestMem (mem : Memory) (fbreq : BidRequestRef) (ext : String) (imp : Imp)
    (plmtId pubId : String) : Option (Memory × BidRequestRef) :=
  let fbreq := { fbreq with Ext := some ext }
  let imp := { imp with TagID := pubId ++ "_" ++ plmtId }
  let imp := { imp with Ext := none }
  let fbreq := { fbreq with Imp := mem.impArrays.length }
  let mem := { mem with impArrays := mem.impArrays ++ [[imp]] }
  injectPublisherMem mem fbreq pubId

/-- The loop of lines 53-96 followed by lines 98-105, over the memory.  `request` is the
address of the inbound request, `arr` the backing array of the slice the `range` clause
evaluated, `n` the number of elements still to visit and `i` the index of the next one.
Each pass reads the element `i` into `imp` and the request into `fbreq`. -/
def makeRequestsLoopMem (this : FacebookAdapter) (J : Json) (request arr : Nat)
    (headers : Header) :
    Nat → Nat → Memory → List RequestData → List GoError →
      Option (Memory × List RequestData × List GoError)
  | 0, _, mem, reqs, errs =>
    if reqs.length = 0 then
      some (mem, [], errs ++ [.BadInput "no valid impressions provided"])
    else
      some (mem, reqs, errs)
  | n + 1, i, mem, reqs, errs =>
    match (mem.impArrays[arr]?).bind (fun a => a[i]?) with
    | none => none
    | some imp =>
      match mem.requests[request]? with
      | none => none
      | some fbreq =>
        match extractPlmtAndPub J imp with
        | .error err =>
          makeRequestsLoopMem this J request arr headers n (i + 1) mem reqs (errs ++ [err])
        | .ok (plmtId, pubId) =>
          let reqExt : facebookReqExt := ⟨this.platformId⟩
          match J.marshalReqExt reqExt with
          | .error msg =>
            makeRequestsLoopMem this J request arr headers n (i + 1) mem reqs
              (errs ++ [.jsonError msg])
          | .ok ext =>
            match perImpRequestMem mem fbreq ext imp plmtId pubId with
            | none => none
            | some (mem, fbreq) =>
              match mem.load fbreq with
              | none => none
              | some value =>
                match J.marshalBidRequest value with
                | .error msg => some (mem, [], errs ++ [.jsonError msg])
                | .ok body =>
                  makeRequestsLoopMem this J request arr headers n (i + 1) mem
                    (reqs ++ [⟨"POST", this.URI, body, headers⟩]) errs

/-- The method `MakeRequests` over the memory: the memory it leaves behind, the requests and
the errors; `none` when it stops on a nil dereference or on an address that is not in the
memory. -/
def MakeRequestsMem (this : FacebookAdapter) (J : Json) (mem : Memory) (request : Nat) :
    Option (Memory × List RequestData × List GoError) :=
  match mem.requests[request]? with
  | none => none
  | some r =>
    match mem.impArrays[r.Imp]? with
    | none => none
    | some imps =>
      if imps.length = 0 then
        some (mem, [], [.BadInput "no impressions provided"])
      else
        makeRequestsLoopMem this J request r.Imp requestHeaders imps.length 0 mem [] []

/-- The memory `later` holds everything `earlier` holds, at the same addresses and with the
same values, and possibly more `App`, `Site` and array cells after them. -/
def Memory.Extends (earlier later : Memory) : Prop :=
  later.requests = earlier.requests ∧
  (∃ extra, later.apps = earlier.apps ++ extra) ∧
  (∃ extra, later.sites = earlier.sites ++ extra) ∧
  (∃ extra, later.impArrays = earlier.impArrays ++ extra)

/-! ## `NewFacebookBidder` (lines 184-202) -/

/-- The constructor `NewFacebookBidder`, without the HTTP client.  The body does not read
the parameter `platformId`: line 200 stores a literal in its place. -/
def NewFacebookBidder (_platformId : String) : FacebookAdapter :=
  { URI := "https://an.facebook.com/placementbid.ortb"
    nonSecureUri := "http://an.facebook.com/placementbid.ortb"
    platformId := "873801679416180" }

/-! ## `MakeBids` (lines 158-182) -/

/-- The type `openrtb_ext.BidType`, a string. -/
abbrev BidType := String

/-- The constant `openrtb_ext.BidTypeBanner`. -/
def BidTypeBanner : BidType := "banner"

/-- The type `adapters.TypedBid`.  `Bid` is a pointer: the address of a variable in the
store. -/
structure TypedBid where
  Bid : Nat
  BidType : BidType
deriving DecidableEq, Repr

/-- The type `adapters.BidderResponse`, as far as the adapter fills it. -/
structure BidderResponse where
  Bids : List TypedBid
deriving DecidableEq, Repr

/-- The zero value of `openrtb.Bid`. -/
def zeroBid : Bid := ⟨"", "", []⟩

/-- The inner loop, lines 173-178.  `addr` is the address of its variable `bid`.  Every
iteration assigns the next element to that one variable and appends an entry holding the
address of the variable. -/
def bidLoop (addr : Nat) : List Bid → List Bid → List TypedBid → List Bid × List TypedBid
  | [], store, bids => (store, bids)
  | b :: bs, store, bids =>
    bidLoop addr bs (store.set addr b) (bids ++ [⟨addr, BidTypeBanner⟩])

/-- The outer loop, lines 172-179.  Each execution of the inner `for` statement declares its
variable `bid` once, at a fresh address. -/
def seatLoop : List SeatBid → List Bid → List TypedBid → List Bid × List TypedBid
  | [], store, bids => (store, bids)
  | seatbid :: seatbids, store, bids =>
    let addr := store.length
    let r := bidLoop addr seatbid.Bid (store ++ [zeroBid]) bids
    seatLoop seatbids r.1 r.2

/-- What `MakeBids` leaves behind: the store, the response (`none` is nil) and the errors. -/
structure MakeBidsResult where
  store : List Bid
  response : Option BidderResponse
  errs : List GoError
deriving DecidableEq, Repr

/-- The method `MakeBids`.  Its first two parameters are not used by the body. -/
def MakeBids (J : Json) (_request : BidRequest) (_adapterRequest : RequestData)
    (response : ResponseData) : MakeBidsResult :=
  if response.StatusCode ≠ 200 then
    let msg := response.Headers.Get "x-fb-an-errors"
    ⟨[], none, [.BadInput ("Unexpected status code " ++ toString response.StatusCode ++
      " with error message '" ++ msg ++ "'")]⟩
  else
    match J.unmarshalBidResponse response.Body with
    | .error msg => ⟨[], none, [.jsonError msg]⟩
    | .ok bidResp =>
      let r := seatLoop bidResp.SeatBid [] []
      ⟨r.1, some ⟨r.2⟩, []⟩

/-- The bids a caller reads through the pointers of the entries once `MakeBids` has
returned, each with its bid type. -/
def MakeBidsResult.entries (r : MakeBidsResult) : List (Option Bid × BidType) :=
  match r.response with
  | none => []
  | some resp => resp.Bids.map (fun tb => (r.store.get? tb.Bid, tb.BidType))

/-! ## Vocabulary for the statements about `MakeRequests` -/

/-- The errors of the impressions whose identifiers cannot be extracted, in input order. -/
def parseErrors (J : Json) (imps : List Imp) : List GoError :=
  imps.filterMap fun imp =>
    match extractPlmtAndPub J imp with
    | .error e => some e
    | .ok _ => none

/-- The impressions whose identifiers can be extracted, in input order. -/
def validImps (J : Json) (imps : List Imp) : List Imp :=
  imps.filter fun imp =>
    match extractPlmtAndPub J imp with
    | .error _ => false
    | .ok _ => true

/-- The request `rd` is what one pass of the loop body builds for the impression `imp`:
the identifiers are `plmtId` and `pubId`, the copy of the request that is serialized is
`fbreq`, and its serialization is the body of `rd`. -/
def BuiltFor (this : FacebookAdapter) (J : Json) (request : BidRequest) (imp : Imp)
    (plmtId pubId : String) (fbreq : BidRequest) (rd : RequestData) : Prop :=
  extractPlmtAndPub J imp = .ok (plmtId, pubId) ∧
  (∃ ext, J.marshalReqExt ⟨this.platformId⟩ = .ok ext ∧
    perImpRequest request ext imp plmtId pubId = some fbreq) ∧
  J.marshalBidRequest fbreq = .ok rd.Body ∧
  rd.Method = "POST" ∧ rd.Uri = this.URI ∧ rd.Headers = requestHeaders

/-- Two impressions that differ at most in the format of the identifiers in their
extension: they are the same impression, or they agree outside the extension, the extension
of the first decodes to the legacy placementId `P_L` with any publisherId, and that of the
second to the placementId `L` with the publisherId `P`, where `P` and `L` are not empty and
have no underscore. -/
def SameUpToFormat (J : Json) (i1 i2 : Imp) : Prop :=
  i1 = i2 ∨
  (i1.TagID = i2.TagID ∧ i1.rest = i2.rest ∧
    ∃ (P L X : String) (b1 b2 : ExtImpBidder),
      P ≠ "" ∧ L ≠ "" ∧ '_' ∉ P.data ∧ '_' ∉ L.data ∧
      J.unmarshalExtImpBidder i1.Ext = .ok b1 ∧
      J.unmarshalExtImpFacebook b1.Bidder = .ok ⟨P ++ "_" ++ L, X⟩ ∧
      J.unmarshalExtImpBidder i2.Ext = .ok b2 ∧
      J.unmarshalExtImpFacebook b2.Bidder = .ok ⟨L, P⟩)

/-! ## Decoders for concrete evaluations -/

/-- A decoder given by finite tables of documents, for concrete evaluations.  The envelope
decoder hands the document on, the parameter decoder and the response decoder look the
document up, the request encoder writes the tag identifiers of the impressions. -/
def tableJson (table : List (String × ExtImpFacebook))
    (responses : List (String × BidResponse)) : Json where
  unmarshalExtImpBidder raw :=
    match raw with
    | none => .error "unexpected end of JSON input"
    | some doc => .ok ⟨some doc⟩
  unmarshalExtImpFacebook raw :=
    match raw with
    | none => .error "unexpected end of JSON input"
    | some doc =>
      match table.lookup doc with
      | some v => .ok v
      | none => .error "invalid character"
  marshalReqExt e := .ok ("platformid=" ++ e.PlatformId)
  marshalBidRequest r := .ok (String.intercalate "," (r.Imp.map (fun i => i.TagID)))
  unmarshalBidResponse body :=
    match responses.lookup body with
    | some v => .ok v
    | none => .error "invalid character"

/-- An adapter for concrete evaluations. -/
def sampleAdapter : FacebookAdapter :=
  ⟨"https://an.facebook.com/placementbid.ortb", "http://an.facebook.com/placementbid.ortb",
    "873801679416180"⟩

/-- A decoder that knows the documents "d" (a legacy identifier) and "m" (a modern one). -/
def sampleJson : Json :=
  tableJson [("d", ⟨"123_abc", "zzz"⟩), ("m", ⟨"xyz", "456"⟩)] []

/-- An inbound request with an `App`, one valid impression and one whose document the
decoder rejects. -/
def sampleAppRequest : BidRequest :=
  ⟨[⟨"", some "d", [("id", "1")]⟩, ⟨"", some "e", [("id", "2")]⟩], none,
    some ⟨none, [("bundle", "b")]⟩, some "inbound", [("id", "r")]⟩

/-- An inbound request with a `Site` and no `App`, and one valid impression. -/
def sampleSiteRequest : BidRequest :=
  ⟨[⟨"", some "m", [("id", "1")]⟩], some ⟨some ⟨"old", []⟩, [("page", "p")]⟩, none, none,
    [("id", "r")]⟩

/-- An inbound request without `App` and `Site` whose two impressions are rejected. -/
def sampleInvalidRequest : BidRequest :=
  ⟨[⟨"", none, []⟩, ⟨"", some "e", []⟩], none, none, none, []⟩

/-- A response decoder that knows the body "r", one seat grouping with the two bids "1"
and "2", and the body "s", the same two bids in two seat groupings. -/
def bidsJson : Json :=
  tableJson [] [("r", ⟨[⟨[⟨"1", "imp", []⟩, ⟨"2", "imp", []⟩], []⟩], []⟩),
    ("s", ⟨[⟨[⟨"1", "imp", []⟩], []⟩, ⟨[⟨"2", "imp", []⟩], []⟩], []⟩)]

/-- The decoder `sampleJson` with a request encoder that writes the top-level extension of
the request instead of the tag identifiers. -/
def extJson : Json :=
  { sampleJson with marshalBidRequest := fun r => .ok (r.Ext.getD "nil") }

/-- A response decoder that knows the body "none", without seat groupings, and the body
"empty", two seat groupings without bids. -/
def emptyBidsJson : Json :=
  tableJson [] [("none", ⟨[], []⟩), ("empty", ⟨[⟨[], []⟩, ⟨[], [("seat", "s")]⟩], []⟩)]

/-- The decoder `sampleJson` with a request encoder that fails on the request whose
impression has the tag identifier "456_xyz". -/
def failingJson : Json :=
  { sampleJson with
    marshalBidRequest := fun r =>
      if r.Imp.map (fun i => i.TagID) = ["456_xyz"] then .error "json: unsupported value"
      else .ok (String.intercalate "," (r.Imp.map (fun i => i.TagID))) }

/-- An inbound request with an `App` and four impressions: a rejected one, a valid one, the
one whose request cannot be serialized, and a valid one. -/
def sampleFailingRequest : BidRequest :=
  ⟨[⟨"", some "e", []⟩, ⟨"", some "d", []⟩, ⟨"", some "m", []⟩, ⟨"", some "d", []⟩], none,
    some ⟨none, []⟩, none, []⟩

/-- An inbound request without `App` and `Site` whose impression is valid. -/
def sampleBareRequest : BidRequest :=
  ⟨[⟨"", some "d", []⟩], none, none, none, []⟩

/-- A decoder that knows the same identifiers in both formats: the document "legacy" and
the document "modern". -/
def pairJson : Json :=
  tableJson [("legacy", ⟨"123_abc", "zzz"⟩), ("modern", ⟨"abc", "123"⟩)] []

/-- A memory holding the request `sampleAppRequest` at address 0, next to a second request
that shares its `App` and its impressions. -/
def sampleMemory : Memory :=
  { requests := [⟨0, none, some 0, some "inbound", [("id", "r")]⟩,
      ⟨0, none, some 0, none, [("id", "other")]⟩]
    apps := [⟨none, [("bundle", "b")]⟩]
    sites := []
    impArrays := [[⟨"", some "d", [("id", "1")]⟩, ⟨"", some "e", [("id", "2")]⟩]] }

/-- The memory `sampleMemory` after `MakeRequests` has run on the request at address 0: one
more `App` cell and one more backing array, made for the valid impression. -/
def sampleMemoryAfter : Memory :=
  { requests := [⟨0, none, some 0, some "inbound", [("id", "r")]⟩,
      ⟨0, none, some 0, none, [("id", "other")]⟩]
    apps := [⟨none, [("bundle", "b")]⟩, ⟨some ⟨"123", []⟩, [("bundle", "b")]⟩]
    sites := []
    impArrays := [[⟨"", some "d", [("id", "1")]⟩, ⟨"", some "e", [("id", "2")]⟩],
      [⟨"123_abc", none, [("id", "1")]⟩]] }

/-- A decoder that knows two legacy identifiers: the document "d" with the placementId
"123_abc" and the document "u" with the placementId "_abc", whose first token is empty. -/
def legacyJson : Json :=
  tableJson [("d", ⟨"123_abc", "zzz"⟩), ("u", ⟨"_abc", "zzz"⟩)] []

/-- An inbound request with an `App` and the two impressions "d" and "u". -/
def legacyRequest : BidRequest :=
  ⟨[⟨"", some "d", [("id", "1")]⟩, ⟨"", some "u", [("id", "2")]⟩], none,
    some ⟨none, []⟩, none, []⟩

/-! ## Facts about `strings.Split` -/

theorem splitChars_ne_nil (sep : Char) (l : List Char) : splitChars sep l ≠ [] := by
  cases l with
  | nil => simp [splitChars]
  | cons c cs =>
    unfold splitChars
    split_ifs
    · simp
    · split <;> simp

/-- Without a separator there is one piece, the whole sequence. -/
theorem splitChars_of_not_mem (sep : Char) (l : List Char) (h : sep ∉ l) :
    splitChars sep l = [l] := by
  induction l with
  | nil => rfl
  | cons c cs ih =>
    have hc : c ≠ sep := fun e => h (by simp [e])
    have hcs : sep ∉ cs := fun e => h (by simp [e])
    simp [splitChars, hc, ih hcs]

/-- The piece before the first separator. -/
theorem splitChars_append_sep (sep : Char) (p l : List Char) (h : sep ∉ p) :
    splitChars sep (p ++ sep :: l) = p :: splitChars sep l := by
  induction p with
  | nil => simp [splitChars]
  | cons c cs ih =>
    have hc : c ≠ sep := fun e => h (by simp [e])
    have hcs : sep ∉ cs := fun e => h (by simp [e])
    simp [splitChars, hc, ih hcs]

/-- A sequence with exactly one separator is a piece, the separator, and a piece. -/
theorem exists_pieces_of_count_eq_one (sep : Char) (l : List Char) (h : l.count sep = 1) :
    ∃ p q : List Char, l = p ++ sep :: q ∧ sep ∉ p ∧ sep ∉ q := by
  induction l with
  | nil => simp at h
  | cons c cs ih =>
    by_cases hc : c = sep
    · subst hc
      refine ⟨[], cs, rfl, by simp, ?_⟩
      have : cs.count c = 0 := by simpa using h
      exact List.count_eq_zero.mp this
    · have hcount : cs.count sep = 1 := by
        simpa [List.count_cons, hc] using h
      obtain ⟨p, q, rfl, hp, hq⟩ := ih hcount
      refine ⟨c :: p, q, rfl, ?_, hq⟩
      simp only [List.mem_cons, not_or]
      exact ⟨fun e => hc e.symm, hp⟩

/-- The number of pieces is the number of separators plus one. -/
theorem length_splitChars (sep : Char) (l : List Char) :
    (splitChars sep l).length = l.count sep + 1 := by
  induction l with
  | nil => rfl
  | cons c cs ih =>
    by_cases hc : c = sep
    · subst hc
      simp [splitChars, ih]
    · have hne : splitChars sep cs ≠ [] := splitChars_ne_nil sep cs
      have hc' : (c == sep) = false := by simpa using hc
      unfold splitChars
      rw [if_neg hc]
      cases hs : splitChars sep cs with
      | nil => exact absurd hs hne
      | cons t ts =>
        rw [hs] at ih
        simp only [List.length_cons] at ih ⊢
        rw [List.count_cons, hc']
        simpa using ih

/-- The shape of `extractPlmtAndPub` once both decoders have answered. -/
theorem extractPlmtAndPub_decoded (J : Json) (out : Imp) (bidderExt : ExtImpBidder)
    (fbExt : ExtImpFacebook) (h1 : J.unmarshalExtImpBidder out.Ext = .ok bidderExt)
    (h2 : J.unmarshalExtImpFacebook bidderExt.Bidder = .ok fbExt)
    (hne : fbExt.PlacementId ≠ "") :
    extractPlmtAndPub J out =
      match stringsSplitUnderscore fbExt.PlacementId with
      | [_] =>
        if fbExt.PublisherId = "" then .error (.BadInput "Missing publisherId param")
        else .ok (fbExt.PlacementId, fbExt.PublisherId)
      | [tok0, tok1] => .ok (tok1, tok0)
      | _ =>
        .error (.BadInput ("Invalid placementId param '" ++ fbExt.PlacementId ++
          "' and publisherId param '" ++ fbExt.PublisherId ++ "'")) := by
  unfold extractPlmtAndPub
  simp only [h1, h2, if_neg hne]

/-- A string with one underscore splits into the text before it and the text after it. -/
theorem stringsSplitUnderscore_of_count_eq_one (s : String) (h : s.data.count '_' = 1) :
    ∃ pub plmt : String, s = pub ++ "_" ++ plmt ∧ '_' ∉ pub.data ∧ '_' ∉ plmt.data ∧
      stringsSplitUnderscore s = [pub, plmt] := by
  obtain ⟨p, q, hs, hp, hq⟩ := exists_pieces_of_count_eq_one '_' s.data h
  refine ⟨⟨p⟩, ⟨q⟩, ?_, hp, hq, ?_⟩
  · apply String.ext
    simp [hs]
  · unfold stringsSplitUnderscore
    rw [hs, splitChars_append_sep _ _ _ hp, splitChars_of_not_mem _ _ hq]
    rfl

/-! ## Facts about the loop of `MakeRequests` -/

theorem parseErrors_cons_error (J : Json) (imp : Imp) (imps : List Imp) (e : GoError)
    (h : extractPlmtAndPub J imp = .error e) :
    parseErrors J (imp :: imps) = e :: parseErrors J imps := by
  simp [parseErrors, List.filterMap_cons, h]

theorem parseErrors_cons_ok (J : Json) (imp : Imp) (imps : List Imp) (p : String × String)
    (h : extractPlmtAndPub J imp = .ok p) :
    parseErrors J (imp :: imps) = parseErrors J imps := by
  simp [parseErrors, List.filterMap_cons, h]

theorem validImps_cons_error (J : Json) (imp : Imp) (imps : List Imp) (e : GoError)
    (h : extractPlmtAndPub J imp = .error e) :
    validImps J (imp :: imps) = validImps J imps := by
  simp [validImps, List.filter_cons, h]

theorem validImps_cons_ok (J : Json) (imp : Imp) (imps : List Imp) (p : String × String)
    (h : extractPlmtAndPub J imp = .ok p) :
    validImps J (imp :: imps) = imp :: validImps J imps := by
  simp [validImps, List.filter_cons, h]

/-- Every impression is counted once, as valid or by its error. -/
theorem length_validImps_add_length_parseErrors (J : Json) (imps : List Imp) :
    (validImps J imps).length + (parseErrors J imps).length = imps.length := by
  induction imps with
  | nil => rfl
  | cons imp imps ih =>
    cases h : extractPlmtAndPub J imp with
    | error e =>
      rw [validImps_cons_error J imp imps e h, parseErrors_cons_error J imp imps e h]
      simp only [List.length_cons]
      omega
    | ok p =>
      rw [validImps_cons_ok J imp imps p h, parseErrors_cons_ok J imp imps p h]
      simp only [List.length_cons]
      omega

/-- With an `App` or a `Site` the publisher can be put somewhere. -/
theorem perImpRequest_isSome (request : BidRequest) (ext : String) (imp : Imp)
    (plmtId pubId : String) (h : request.App ≠ none ∨ request.Site ≠ none) :
    ∃ fbreq, perImpRequest request ext imp plmtId pubId = some fbreq := by
  obtain ⟨imps, site, app, rext, rest⟩ := request
  cases app with
  | some app => exact ⟨_, rfl⟩
  | none =>
    cases site with
    | some site => exact ⟨_, rfl⟩
    | none => simp at h

/-- One pass of the loop body on an impression the parser rejects. -/
theorem makeRequestsLoop_cons_error (this : FacebookAdapter) (J : Json) (request : BidRequest)
    (headers : Header) (imp : Imp) (imps : List Imp) (reqs : List RequestData)
    (errs : List GoError) (e : GoError) (h : extractPlmtAndPub J imp = .error e) :
    makeRequestsLoop this J request headers (imp :: imps) reqs errs =
      makeRequestsLoop this J request headers imps reqs (errs ++ [e]) := by
  rw [makeRequestsLoop, h]

/-- One pass of the loop body that reaches line 90. -/
theorem makeRequestsLoop_cons_ok (this : FacebookAdapter) (J : Json) (request : BidRequest)
    (headers : Header) (imp : Imp) (imps : List Imp) (reqs : List RequestData)
    (errs : List GoError) (plmtId pubId ext body : String) (fbreq : BidRequest)
    (h : extractPlmtAndPub J imp = .ok (plmtId, pubId))
    (hext : J.marshalReqExt ⟨this.platformId⟩ = .ok ext)
    (hreq : perImpRequest request ext imp plmtId pubId = some fbreq)
    (hbody : J.marshalBidRequest fbreq = .ok body) :
    makeRequestsLoop this J request headers (imp :: imps) reqs errs =
      makeRequestsLoop this J request headers imps
        (reqs ++ [⟨"POST", this.URI, body, headers⟩]) errs := by
  rw [makeRequestsLoop, h]
  simp only [hext, hreq, hbody]

/-- When every pass of the loop body over `imps` that gets past the parser also gets past
both serializations and the publisher injection, the loop runs to its end: it has appended
one request per valid impression and one error per other impression, in order. -/
theorem makeRequestsLoop_complete (this : FacebookAdapter) (J : Json) (request : BidRequest)
    (imps : List Imp)
    (hpass : ∀ imp ∈ imps, ∀ plmtId pubId, extractPlmtAndPub J imp = .ok (plmtId, pubId) →
      ∃ ext fbreq body, J.marshalReqExt ⟨this.platformId⟩ = .ok ext ∧
        perImpRequest request ext imp plmtId pubId = some fbreq ∧
        J.marshalBidRequest fbreq = .ok body)
    (reqs : List RequestData) (errs : List GoError) :
    ∃ built : List RequestData,
      makeRequestsLoop this J request requestHeaders imps reqs errs =
        makeRequestsLoop this J request requestHeaders [] (reqs ++ built)
          (errs ++ parseErrors J imps) ∧
      List.Forall₂ (fun imp rd => ∃ plmtId pubId fbreq,
        BuiltFor this J request imp plmtId pubId fbreq rd) (validImps J imps) built := by
  induction imps generalizing reqs errs with
  | nil => exact ⟨[], by simp [parseErrors], by simp [validImps]⟩
  | cons imp imps ih =>
    have hpass' : ∀ i ∈ imps, ∀ plmtId pubId, extractPlmtAndPub J i = .ok (plmtId, pubId) →
        ∃ ext fbreq body, J.marshalReqExt ⟨this.platformId⟩ = .ok ext ∧
          perImpRequest request ext i plmtId pubId = some fbreq ∧
          J.marshalBidRequest fbreq = .ok body :=
      fun i hi => hpass i (List.mem_cons_of_mem _ hi)
    cases h : extractPlmtAndPub J imp with
    | error e =>
      obtain ⟨built, hrun, hbuilt⟩ := ih hpass' reqs (errs ++ [e])
      refine ⟨built, ?_, ?_⟩
      · rw [makeRequestsLoop_cons_error this J request _ imp imps reqs errs e h, hrun,
          parseErrors_cons_error J imp imps e h]
        simp
      · rw [validImps_cons_error J imp imps e h]
        exact hbuilt
    | ok p =>
      obtain ⟨plmtId, pubId⟩ := p
      obtain ⟨ext, fbreq, body, hext, hreq, hbody⟩ :=
        hpass imp (List.mem_cons_self _ _) plmtId pubId h
      obtain ⟨built, hrun, hbuilt⟩ :=
        ih hpass' (reqs ++ [⟨"POST", this.URI, body, requestHeaders⟩]) errs
      refine ⟨⟨"POST", this.URI, body, requestHeaders⟩ :: built, ?_, ?_⟩
      · rw [makeRequestsLoop_cons_ok this J request _ imp imps reqs errs plmtId pubId ext body
          fbreq h hext hreq hbody, hrun, parseErrors_cons_ok J imp imps _ h]
        simp
      · rw [validImps_cons_ok J imp imps _ h]
        exact List.Forall₂.cons
          ⟨plmtId, pubId, fbreq, h, ⟨ext, hext, hreq⟩, hbody, rfl, rfl, rfl⟩ hbuilt

/-- Every request the loop returns was either there before or is built by the loop body for
one of the impressions. -/
theorem makeRequestsLoop_sound (this : FacebookAdapter) (J : Json) (request : BidRequest)
    (imps : List Imp) (reqs : List RequestData) (errs : List GoError)
    (reqs' : List RequestData) (errs' : List GoError)
    (h : makeRequestsLoop this J request requestHeaders imps reqs errs = some (reqs', errs'))
    (rd : RequestData) (hrd : rd ∈ reqs') :
    rd ∈ reqs ∨ ∃ imp ∈ imps, ∃ plmtId pubId fbreq,
      BuiltFor this J request imp plmtId pubId fbreq rd := by
  induction imps generalizing reqs errs with
  | nil =>
    rw [makeRequestsLoop] at h
    split_ifs at h with h0
    · simp only [Option.some.injEq, Prod.mk.injEq] at h
      rw [← h.1] at hrd
      simp at hrd
    · simp only [Option.some.injEq, Prod.mk.injEq] at h
      rw [← h.1] at hrd
      exact Or.inl hrd
  | cons imp imps ih =>
    rw [makeRequestsLoop] at h
    cases hx : extractPlmtAndPub J imp with
    | error e =>
      rw [hx] at h
      simp only at h
      rcases ih _ _ h with hin | ⟨i, hi, hb⟩
      · exact Or.inl hin
      · exact Or.inr ⟨i, List.mem_cons_of_mem _ hi, hb⟩
    | ok p =>
      obtain ⟨plmtId, pubId⟩ := p
      rw [hx] at h
      simp only at h
      cases hext : J.marshalReqExt ⟨this.platformId⟩ with
      | error msg =>
        rw [hext] at h
        simp only at h
        rcases ih _ _ h with hin | ⟨i, hi, hb⟩
        · exact Or.inl hin
        · exact Or.inr ⟨i, List.mem_cons_of_mem _ hi, hb⟩
      | ok ext =>
        rw [hext] at h
        simp only at h
        cases hreq : perImpRequest request ext imp plmtId pubId with
        | none =>
          rw [hreq] at h
          simp at h
        | some fbreq =>
          rw [hreq] at h
          simp only at h
          cases hbody : J.marshalBidRequest fbreq with
          | error msg =>
            rw [hbody] at h
            simp only [Option.some.injEq, Prod.mk.injEq] at h
            rw [← h.1] at hrd
            simp at hrd
          | ok body =>
            rw [hbody] at h
            simp only at h
            rcases ih _ _ h with hin | ⟨i, hi, hb⟩
            · rcases List.mem_append.mp hin with hin | hin
              · exact Or.inl hin
              · right
                simp only [List.mem_singleton] at hin
                subst hin
                exact ⟨imp, List.mem_cons_self _ _, plmtId, pubId, fbreq, hx,
                  ⟨ext, hext, hreq⟩, hbody, rfl, rfl, rfl⟩
            · exact Or.inr ⟨i, List.mem_cons_of_mem _ hi, hb⟩

/-- Every request `MakeRequests` returns is built by the loop body for an impression of the
inbound request. -/
theorem MakeRequests_sound (this : FacebookAdapter) (J : Json) (request : BidRequest)
    (reqs : List RequestData) (errs : List GoError)
    (h : MakeRequests this J request = some (reqs, errs))
    (rd : RequestData) (hrd : rd ∈ reqs) :
    ∃ imp ∈ request.Imp, ∃ plmtId pubId fbreq,
      BuiltFor this J request imp plmtId pubId fbreq rd := by
  unfold MakeRequests at h
  split_ifs at h with h0
  · simp only [Option.some.injEq, Prod.mk.injEq] at h
    rw [← h.1] at hrd
    simp at hrd
  · rcases makeRequestsLoop_sound this J request _ _ _ _ _ h rd hrd with hin | hb
    · simp at hin
    · exact hb

/-- When no impression gets past the parser there is one error per impression, in order,
and no valid impression. -/
theorem parseErrors_of_all_fail (J : Json) (imps : List Imp)
    (hall : ∀ imp ∈ imps, ∃ e, extractPlmtAndPub J imp = .error e) :
    List.Forall₂ (fun imp e => extractPlmtAndPub J imp = .error e) imps (parseErrors J imps) ∧
    validImps J imps = [] := by
  induction imps with
  | nil => exact ⟨by simp [parseErrors], by simp [validImps]⟩
  | cons imp imps ih =>
    obtain ⟨e, he⟩ := hall imp (List.mem_cons_self _ _)
    obtain ⟨h1, h2⟩ := ih fun i hi => hall i (List.mem_cons_of_mem _ hi)
    rw [parseErrors_cons_error J imp imps e he, validImps_cons_error J imp imps e he]
    exact ⟨List.Forall₂.cons he h1, h2⟩

/-- What the copy of the request looks like when it is serialized. -/
theorem perImpRequest_shape (request : BidRequest) (ext : String) (imp : Imp)
    (plmtId pubId : String) (fbreq : BidRequest)
    (h : perImpRequest request ext imp plmtId pubId = some fbreq) :
    fbreq.Imp = [{ imp with TagID := pubId ++ "_" ++ plmtId, Ext := none }] ∧
    fbreq.Ext = some ext ∧
    fbreq.rest = request.rest ∧
    (∀ app, request.App = some app →
      fbreq.App = some { app with Publisher := some ⟨pubId, []⟩ } ∧
      fbreq.Site = request.Site) ∧
    (request.App = none → ∀ site, request.Site = some site →
      fbreq.Site = some { site with Publisher := some ⟨pubId, []⟩ } ∧ fbreq.App = none) := by
  obtain ⟨imps, site, app, rext, rest⟩ := request
  cases app with
  | some app =>
    simp only [perImpRequest, injectPublisher, Option.some.injEq] at h
    subst h
    simp
  | none =>
    cases site with
    | some site =>
      simp only [perImpRequest, injectPublisher, Option.some.injEq] at h
      subst h
      simp
    | none => simp [perImpRequest, injectPublisher] at h

/-! ## The identifier parser -/

/-- Claim C1.  Legacy format: when the decoded placementId splits at its underscores into
exactly two tokens it contains exactly one underscore, and whatever the decoded publisherId
is the parser succeeds with placementId the token after the underscore and publisherId the
token before it. -/
theorem extractPlmtAndPub_legacy (J : Json) (out : Imp) (bidderExt : ExtImpBidder)
    (fbExt : ExtImpFacebook) (h1 : J.unmarshalExtImpBidder out.Ext = .ok bidderExt)
    (h2 : J.unmarshalExtImpFacebook bidderExt.Bidder = .ok fbExt)
    (htwo : (stringsSplitUnderscore fbExt.PlacementId).length = 2) :
    fbExt.PlacementId.data.count '_' = 1 ∧
    ∃ pub plmt : String,
      fbExt.PlacementId = pub ++ "_" ++ plmt ∧ '_' ∉ pub.data ∧ '_' ∉ plmt.data ∧
      stringsSplitUnderscore fbExt.PlacementId = [pub, plmt] ∧
      extractPlmtAndPub J out = .ok (plmt, pub) := by
  have hone : fbExt.PlacementId.data.count '_' = 1 := by
    unfold stringsSplitUnderscore at htwo
    rw [List.length_map, length_splitChars] at htwo
    omega
  obtain ⟨pub, plmt, hs, hp, hq, hsplit⟩ :=
    stringsSplitUnderscore_of_count_eq_one fbExt.PlacementId hone
  have hne : fbExt.PlacementId ≠ "" := by
    intro e
    rw [e] at hone
    simp at hone
  refine ⟨hone, pub, plmt, hs, hp, hq, hsplit, ?_⟩
  rw [extractPlmtAndPub_decoded J out bidderExt fbExt h1 h2 hne, hsplit]

/-- The witness of C1: placementId "123_abc" with a separately supplied publisherId "zzz"
gives ("abc", "123"). -/
theorem extractPlmtAndPub_legacy_witness :
    ((stringsSplitUnderscore "123_abc").length = 2 ∧
      extractPlmtAndPub (tableJson [("d", ⟨"123_abc", "zzz"⟩)] []) ⟨"", some "d", []⟩
        = .ok ("abc", "123")) ∧
    "123_abc".data.count '_' = 1 ∧
    ∃ pub plmt : String,
      "123_abc" = pub ++ "_" ++ plmt ∧ '_' ∉ pub.data ∧ '_' ∉ plmt.data ∧
      stringsSplitUnderscore "123_abc" = [pub, plmt] ∧
      extractPlmtAndPub (tableJson [("d", ⟨"123_abc", "zzz"⟩)] []) ⟨"", some "d", []⟩
        = .ok (plmt, pub) :=
  ⟨⟨by decide, by decide⟩,
    extractPlmtAndPub_legacy (tableJson [("d", ⟨"123_abc", "zzz"⟩)] []) ⟨"", some "d", []⟩
      ⟨some "d"⟩ ⟨"123_abc", "zzz"⟩ (by rfl) (by rfl) (by decide)⟩

/-- Claim C2.  Modern format: when the decoded placementId is not empty and has no
underscore, the parser succeeds exactly when the decoded publisherId is not empty; it then
returns the two fields as supplied, and otherwise fails with the BadInput error
"Missing publisherId param". -/
theorem extractPlmtAndPub_modern (J : Json) (out : Imp) (bidderExt : ExtImpBidder)
    (fbExt : ExtImpFacebook) (h1 : J.unmarshalExtImpBidder out.Ext = .ok bidderExt)
    (h2 : J.unmarshalExtImpFacebook bidderExt.Bidder = .ok fbExt)
    (hne : fbExt.PlacementId ≠ "") (hno : '_' ∉ fbExt.PlacementId.data) :
    ((∃ p, extractPlmtAndPub J out = .ok p) ↔ fbExt.PublisherId ≠ "") ∧
    (fbExt.PublisherId ≠ "" →
      extractPlmtAndPub J out = .ok (fbExt.PlacementId, fbExt.PublisherId)) ∧
    (fbExt.PublisherId = "" →
      extractPlmtAndPub J out = .error (.BadInput "Missing publisherId param")) := by
  have hsplit : stringsSplitUnderscore fbExt.PlacementId = [fbExt.PlacementId] := by
    unfold stringsSplitUnderscore
    rw [splitChars_of_not_mem _ _ hno]
    rfl
  have hex := extractPlmtAndPub_decoded J out bidderExt fbExt h1 h2 hne
  rw [hsplit] at hex
  simp only at hex
  by_cases hp : fbExt.PublisherId = ""
  · rw [if_pos hp] at hex
    refine ⟨?_, fun h => absurd hp h, fun _ => hex⟩
    constructor
    · rintro ⟨p, hp'⟩
      rw [hex] at hp'
      cases hp'
    · intro h
      exact absurd hp h
  · rw [if_neg hp] at hex
    exact ⟨⟨fun _ => hp, fun _ => ⟨_, hex⟩⟩, fun _ => hex, fun h => absurd h hp⟩

/-- The witness of C2: placementId "abc" and publisherId "123" give ("abc", "123"). -/
theorem extractPlmtAndPub_modern_witness :
    ("abc" ≠ "" ∧ '_' ∉ "abc".data ∧
      extractPlmtAndPub (tableJson [("d", ⟨"abc", "123"⟩)] []) ⟨"", some "d", []⟩
        = .ok ("abc", "123")) ∧
    ((∃ p, extractPlmtAndPub (tableJson [("d", ⟨"abc", "123"⟩)] []) ⟨"", some "d", []⟩
        = .ok p) ↔ "123" ≠ "") ∧
    ("123" ≠ "" →
      extractPlmtAndPub (tableJson [("d", ⟨"abc", "123"⟩)] []) ⟨"", some "d", []⟩
        = .ok ("abc", "123")) ∧
    ("123" = "" →
      extractPlmtAndPub (tableJson [("d", ⟨"abc", "123"⟩)] []) ⟨"", some "d", []⟩
        = .error (.BadInput "Missing publisherId param")) :=
  ⟨⟨by decide, by decide, by decide⟩,
    extractPlmtAndPub_modern (tableJson [("d", ⟨"abc", "123"⟩)] []) ⟨"", some "d", []⟩
      ⟨some "d"⟩ ⟨"abc", "123"⟩ (by rfl) (by rfl) (by decide) (by decide)⟩

/-- Claim C3.  The parser succeeds on a placementId with a leading underscore, returning an
empty publisherId, and on a placementId with a trailing underscore, returning an empty
placementId: success does not imply that both identifiers are non-empty. -/
theorem extractPlmtAndPub_empty_token :
    extractPlmtAndPub (tableJson [("d", ⟨"_abc", "123"⟩)] []) ⟨"", some "d", []⟩
        = .ok ("abc", "") ∧
    extractPlmtAndPub (tableJson [("d", ⟨"abc_", "123"⟩)] []) ⟨"", some "d", []⟩
        = .ok ("", "abc") := by
  constructor <;> decide

/-! ## The request builder -/

/-- Claim C4.  When at least one impression gets past the parser, `App` or `Site` is there
and the serializations succeed, `MakeRequests` returns one request per valid impression, in
the order of those impressions, and as errors exactly the parse errors of the other
impressions in input order; the two lengths add up to the number of impressions. -/
theorem MakeRequests_partial_failure (this : FacebookAdapter) (J : Json)
    (request : BidRequest) (ext : String)
    (hvalid : ∃ imp ∈ request.Imp, ∃ p, extractPlmtAndPub J imp = .ok p)
    (happ : request.App ≠ none ∨ request.Site ≠ none)
    (hext : J.marshalReqExt ⟨this.platformId⟩ = .ok ext)
    (hbody : ∀ imp ∈ request.Imp, ∀ plmtId pubId fbreq,
      extractPlmtAndPub J imp = .ok (plmtId, pubId) →
      perImpRequest request ext imp plmtId pubId = some fbreq →
      ∃ body, J.marshalBidRequest fbreq = .ok body) :
    ∃ reqs errs, MakeRequests this J request = some (reqs, errs) ∧
      List.Forall₂ (fun imp rd => ∃ plmtId pubId fbreq,
          extractPlmtAndPub J imp = .ok (plmtId, pubId) ∧
          perImpRequest request ext imp plmtId pubId = some fbreq ∧
          J.marshalBidRequest fbreq = .ok rd.Body ∧
          rd.Method = "POST" ∧ rd.Uri = this.URI ∧ rd.Headers = requestHeaders)
        (validImps J request.Imp) reqs ∧
      errs = parseErrors J request.Imp ∧
      reqs.length + errs.length = request.Imp.length := by
  have hpass : ∀ imp ∈ request.Imp, ∀ plmtId pubId,
      extractPlmtAndPub J imp = .ok (plmtId, pubId) →
      ∃ ext fbreq body, J.marshalReqExt ⟨this.platformId⟩ = .ok ext ∧
        perImpRequest request ext imp plmtId pubId = some fbreq ∧
        J.marshalBidRequest fbreq = .ok body := by
    intro imp himp plmtId pubId hx
    obtain ⟨fbreq, hreq⟩ := perImpRequest_isSome request ext imp plmtId pubId happ
    obtain ⟨body, hb⟩ := hbody imp himp plmtId pubId fbreq hx hreq
    exact ⟨ext, fbreq, body, hext, hreq, hb⟩
  obtain ⟨built, hrun, hbuilt⟩ :=
    makeRequestsLoop_complete this J request request.Imp hpass [] []
  have hlen : built.length = (validImps J request.Imp).length := hbuilt.length_eq.symm
  have hpos : 0 < (validImps J request.Imp).length := by
    obtain ⟨imp, himp, p, hp⟩ := hvalid
    apply List.length_pos_of_mem (a := imp)
    simp [validImps, List.mem_filter, himp, hp]
  have himps : request.Imp.length ≠ 0 := by
    obtain ⟨imp, himp, _⟩ := hvalid
    exact Nat.pos_iff_ne_zero.mp (List.length_pos_of_mem himp)
  have hbl : built.length ≠ 0 := by omega
  refine ⟨built, parseErrors J request.Imp, ?_, ?_, rfl, ?_⟩
  · unfold MakeRequests
    rw [if_neg himps, hrun, makeRequestsLoop]
    simp [hbl]
  · refine hbuilt.imp ?_
    rintro imp rd ⟨plmtId, pubId, fbreq, hx, ⟨ext', hext', hreq⟩, hb, hm, hu, hh⟩
    have : ext' = ext := by
      rw [hext] at hext'
      cases hext'
      rfl
    subst this
    exact ⟨plmtId, pubId, fbreq, hx, hreq, hb, hm, hu, hh⟩
  · rw [hlen]
    exact length_validImps_add_length_parseErrors J request.Imp

/-- The witness of C4: of two impressions the first is valid and the second is not; one
request and one error come back. -/
theorem MakeRequests_partial_failure_witness :
    MakeRequests sampleAdapter sampleJson sampleAppRequest =
      some ([⟨"POST", "https://an.facebook.com/placementbid.ortb", "123_abc",
        requestHeaders⟩], [.BadInput "invalid character"]) ∧
    ∃ reqs errs, MakeRequests sampleAdapter sampleJson sampleAppRequest = some (reqs, errs) ∧
      List.Forall₂ (fun imp rd => ∃ plmtId pubId fbreq,
          extractPlmtAndPub sampleJson imp = .ok (plmtId, pubId) ∧
          perImpRequest sampleAppRequest "platformid=873801679416180" imp plmtId pubId
            = some fbreq ∧
          sampleJson.marshalBidRequest fbreq = .ok rd.Body ∧
          rd.Method = "POST" ∧ rd.Uri = sampleAdapter.URI ∧ rd.Headers = requestHeaders)
        (validImps sampleJson sampleAppRequest.Imp) reqs ∧
      errs = parseErrors sampleJson sampleAppRequest.Imp ∧
      reqs.length + errs.length = sampleAppRequest.Imp.length :=
  ⟨by decide,
    MakeRequests_partial_failure sampleAdapter sampleJson sampleAppRequest
      "platformid=873801679416180"
      ⟨⟨"", some "d", [("id", "1")]⟩, by decide, ("abc", "123"), by decide⟩
      (Or.inl (by decide)) (by decide) (fun _ _ _ _ _ _ _ => ⟨_, rfl⟩)⟩

/-- Claim C5.  With no impression, whatever else the request holds, `MakeRequests` returns
no request and the single BadInput error "no impressions provided". -/
theorem MakeRequests_no_impressions (this : FacebookAdapter) (J : Json) (request : BidRequest)
    (h : request.Imp = []) :
    MakeRequests this J request = some ([], [.BadInput "no impressions provided"]) := by
  unfold MakeRequests
  simp [h]

/-- The witness of C5: a request without impressions, `App` and `Site`. -/
theorem MakeRequests_no_impressions_witness :
    (⟨[], none, none, some "x", []⟩ : BidRequest).Imp = [] ∧
    MakeRequests sampleAdapter sampleJson ⟨[], none, none, some "x", []⟩ =
      some ([], [.BadInput "no impressions provided"]) :=
  ⟨rfl, MakeRequests_no_impressions sampleAdapter sampleJson ⟨[], none, none, some "x", []⟩ rfl⟩

/-- Claim C6.  With n impressions, n at least one, none of which gets past the parser,
`MakeRequests` returns no request and n + 1 errors: the parse error of each impression in
input order, then the BadInput error "no valid impressions provided", whose message is not
that of the empty request. -/
theorem MakeRequests_all_invalid (this : FacebookAdapter) (J : Json) (request : BidRequest)
    (hne : request.Imp ≠ [])
    (hall : ∀ imp ∈ request.Imp, ∃ e, extractPlmtAndPub J imp = .error e) :
    ∃ perImp : List GoError,
      List.Forall₂ (fun imp e => extractPlmtAndPub J imp = .error e) request.Imp perImp ∧
      MakeRequests this J request =
        some ([], perImp ++ [.BadInput "no valid impressions provided"]) ∧
      (perImp ++ [GoError.BadInput "no valid impressions provided"]).length =
        request.Imp.length + 1 ∧
      GoError.BadInput "no valid impressions provided" ≠
        GoError.BadInput "no impressions provided" := by
  obtain ⟨hf, hv⟩ := parseErrors_of_all_fail J request.Imp hall
  have hpass : ∀ imp ∈ request.Imp, ∀ plmtId pubId,
      extractPlmtAndPub J imp = .ok (plmtId, pubId) →
      ∃ ext fbreq body, J.marshalReqExt ⟨this.platformId⟩ = .ok ext ∧
        perImpRequest request ext imp plmtId pubId = some fbreq ∧
        J.marshalBidRequest fbreq = .ok body := by
    intro imp himp plmtId pubId hx
    obtain ⟨e, he⟩ := hall imp himp
    rw [he] at hx
    cases hx
  obtain ⟨built, hrun, hbuilt⟩ :=
    makeRequestsLoop_complete this J request request.Imp hpass [] []
  rw [hv] at hbuilt
  have hb : built = [] := by
    cases hbuilt
    rfl
  subst hb
  have himps : request.Imp.length ≠ 0 := by
    intro h0
    exact hne (List.length_eq_zero.mp h0)
  refine ⟨parseErrors J request.Imp, hf, ?_, ?_, by decide⟩
  · unfold MakeRequests
    rw [if_neg himps, hrun, makeRequestsLoop]
    simp
  · rw [List.length_append, hf.length_eq]
    rfl

/-- The witness of C6: two rejected impressions in a request without `App` and `Site`. -/
theorem MakeRequests_all_invalid_witness :
    MakeRequests sampleAdapter sampleJson sampleInvalidRequest =
      some ([], [.BadInput "unexpected end of JSON input", .BadInput "invalid character",
        .BadInput "no valid impressions provided"]) ∧
    ∃ perImp : List GoError,
      List.Forall₂ (fun imp e => extractPlmtAndPub sampleJson imp = .error e)
        sampleInvalidRequest.Imp perImp ∧
      MakeRequests sampleAdapter sampleJson sampleInvalidRequest =
        some ([], perImp ++ [.BadInput "no valid impressions provided"]) ∧
      (perImp ++ [GoError.BadInput "no valid impressions provided"]).length =
        sampleInvalidRequest.Imp.length + 1 ∧
      GoError.BadInput "no valid impressions provided" ≠
        GoError.BadInput "no impressions provided" :=
  ⟨by decide,
    MakeRequests_all_invalid sampleAdapter sampleJson sampleInvalidRequest (by decide)
      (by
        intro imp himp
        simp only [sampleInvalidRequest, List.mem_cons, List.mem_singleton,
          List.not_mem_nil, or_false] at himp
        rcases himp with rfl | rfl
        · exact ⟨.BadInput "unexpected end of JSON input", by decide⟩
        · exact ⟨.BadInput "invalid character", by decide⟩)⟩

/-- Claim C7.  Every request `MakeRequests` returns is the serialization of a copy of the
inbound request, made for an impression whose identifiers were extracted, that holds exactly
one impression: the input impression with tagId `publisherId_placementId` and without its
extension, its other fields as they were.  The remaining top-level fields of the copy, and
the fields of `App` and `Site` other than the publisher, are those of the inbound request. -/
theorem MakeRequests_body_shape (this : FacebookAdapter) (J : Json) (request : BidRequest)
    (reqs : List RequestData) (errs : List GoError)
    (h : MakeRequests this J request = some (reqs, errs))
    (rd : RequestData) (hrd : rd ∈ reqs) :
    ∃ imp ∈ request.Imp, ∃ plmtId pubId ext fbreq,
      extractPlmtAndPub J imp = .ok (plmtId, pubId) ∧
      perImpRequest request ext imp plmtId pubId = some fbreq ∧
      J.marshalBidRequest fbreq = .ok rd.Body ∧
      fbreq.Imp.length = 1 ∧
      fbreq.Imp = [{ imp with TagID := pubId ++ "_" ++ plmtId, Ext := none }] ∧
      fbreq.rest = request.rest ∧
      fbreq.App.map (fun app => app.rest) = request.App.map (fun app => app.rest) ∧
      fbreq.Site.map (fun site => site.rest) = request.Site.map (fun site => site.rest) := by
  obtain ⟨imp, himp, plmtId, pubId, fbreq, hx, ⟨ext, _, hreq⟩, hb, _⟩ :=
    MakeRequests_sound this J request reqs errs h rd hrd
  obtain ⟨hImp, _, hrest, hApp, hSite⟩ :=
    perImpRequest_shape request ext imp plmtId pubId fbreq hreq
  refine ⟨imp, himp, plmtId, pubId, ext, fbreq, hx, hreq, hb, by rw [hImp]; rfl, hImp,
    hrest, ?_, ?_⟩
  · cases hA : request.App with
    | some app => simp [(hApp app hA).1]
    | none =>
      cases hS : request.Site with
      | some site => simp [(hSite hA site hS).2]
      | none =>
        obtain ⟨imps, site, app, rext, rest⟩ := request
        simp only at hA hS
        subst hA hS
        simp [perImpRequest, injectPublisher] at hreq
  · cases hA : request.App with
    | some app => rw [(hApp app hA).2]
    | none =>
      cases hS : request.Site with
      | some site => simp [(hSite hA site hS).1]
      | none =>
        obtain ⟨imps, site, app, rext, rest⟩ := request
        simp only at hA hS
        subst hA hS
        simp [perImpRequest, injectPublisher] at hreq

/-- The witness of C7: the one request built for the request with an `App`. -/
theorem MakeRequests_body_shape_witness :
    MakeRequests sampleAdapter sampleJson sampleAppRequest =
      some ([⟨"POST", "https://an.facebook.com/placementbid.ortb", "123_abc",
        requestHeaders⟩], [.BadInput "invalid character"]) ∧
    ∃ imp ∈ sampleAppRequest.Imp, ∃ plmtId pubId ext fbreq,
      extractPlmtAndPub sampleJson imp = .ok (plmtId, pubId) ∧
      perImpRequest sampleAppRequest ext imp plmtId pubId = some fbreq ∧
      sampleJson.marshalBidRequest fbreq = .ok "123_abc" ∧
      fbreq.Imp.length = 1 ∧
      fbreq.Imp = [{ imp with TagID := pubId ++ "_" ++ plmtId, Ext := none }] ∧
      fbreq.rest = sampleAppRequest.rest ∧
      fbreq.App.map (fun app => app.rest) = sampleAppRequest.App.map (fun app => app.rest) ∧
      fbreq.Site.map (fun site => site.rest) =
        sampleAppRequest.Site.map (fun site => site.rest) :=
  ⟨by decide,
    MakeRequests_body_shape sampleAdapter sampleJson sampleAppRequest
      [⟨"POST", "https://an.facebook.com/placementbid.ortb", "123_abc", requestHeaders⟩]
      [.BadInput "invalid character"] (by decide)
      ⟨"POST", "https://an.facebook.com/placementbid.ortb", "123_abc", requestHeaders⟩
      (List.mem_singleton.mpr rfl)⟩

/-- Claim C8.  For every request `MakeRequests` returns, built for an impression with
publisher identifier `pubId`: when the inbound request has an `App`, the serialized copy has
that `App` with its publisher replaced by one whose only set field is the identifier, and
the `Site` of the inbound request untouched; when it has no `App` but a `Site`, the copy has
that `Site` with its publisher replaced in the same way, and still no `App`. -/
theorem MakeRequests_publisher_injection (this : FacebookAdapter) (J : Json)
    (request : BidRequest) (reqs : List RequestData) (errs : List GoError)
    (h : MakeRequests this J request = some (reqs, errs))
    (rd : RequestData) (hrd : rd ∈ reqs) :
    ∃ imp ∈ request.Imp, ∃ plmtId pubId ext fbreq,
      extractPlmtAndPub J imp = .ok (plmtId, pubId) ∧
      perImpRequest request ext imp plmtId pubId = some fbreq ∧
      J.marshalBidRequest fbreq = .ok rd.Body ∧
      (∀ app, request.App = some app →
        fbreq.App = some { app with Publisher := some ⟨pubId, []⟩ } ∧
        fbreq.Site = request.Site) ∧
      (request.App = none → ∀ site, request.Site = some site →
        fbreq.Site = some { site with Publisher := some ⟨pubId, []⟩ } ∧
        fbreq.App = none) := by
  obtain ⟨imp, himp, plmtId, pubId, fbreq, hx, ⟨ext, _, hreq⟩, hb, _⟩ :=
    MakeRequests_sound this J request reqs errs h rd hrd
  obtain ⟨_, _, _, hApp, hSite⟩ :=
    perImpRequest_shape request ext imp plmtId pubId fbreq hreq
  exact ⟨imp, himp, plmtId, pubId, ext, fbreq, hx, hreq, hb, hApp, hSite⟩

/-- The witness of C8: the request built for the request with a `Site` and no `App`; the
publisher "old" of the site is replaced. -/
theorem MakeRequests_publisher_injection_witness :
    MakeRequests sampleAdapter sampleJson sampleSiteRequest =
      some ([⟨"POST", "https://an.facebook.com/placementbid.ortb", "456_xyz",
        requestHeaders⟩], []) ∧
    ∃ imp ∈ sampleSiteRequest.Imp, ∃ plmtId pubId ext fbreq,
      extractPlmtAndPub sampleJson imp = .ok (plmtId, pubId) ∧
      perImpRequest sampleSiteRequest ext imp plmtId pubId = some fbreq ∧
      sampleJson.marshalBidRequest fbreq = .ok "456_xyz" ∧
      (∀ app, sampleSiteRequest.App = some app →
        fbreq.App = some { app with Publisher := some ⟨pubId, []⟩ } ∧
        fbreq.Site = sampleSiteRequest.Site) ∧
      (sampleSiteRequest.App = none → ∀ site, sampleSiteRequest.Site = some site →
        fbreq.Site = some { site with Publisher := some ⟨pubId, []⟩ } ∧
        fbreq.App = none) :=
  ⟨by decide,
    MakeRequests_publisher_injection sampleAdapter sampleJson sampleSiteRequest
      [⟨"POST", "https://an.facebook.com/placementbid.ortb", "456_xyz", requestHeaders⟩]
      [] (by decide)
      ⟨"POST", "https://an.facebook.com/placementbid.ortb", "456_xyz", requestHeaders⟩
      (List.mem_singleton.mpr rfl)⟩

/-! ## The response mapper -/

/-- Claim C9.  For a status 200 response whose one seat grouping holds the bids "1" and "2",
both entries of the result point at the same variable, which holds the bid "2" when
`MakeBids` returns: the first entry does not carry the first bid.  With the same two bids in
two seat groupings the entries carry the bids "1" and "2". -/
theorem MakeBids_entries_share_loop_variable :
    (MakeBids bidsJson ⟨[], none, none, none, []⟩ ⟨"", "", "", ⟨[]⟩⟩
        ⟨200, "r", ⟨[]⟩⟩).entries =
      [(some ⟨"2", "imp", []⟩, BidTypeBanner), (some ⟨"2", "imp", []⟩, BidTypeBanner)] ∧
    (MakeBids bidsJson ⟨[], none, none, none, []⟩ ⟨"", "", "", ⟨[]⟩⟩
        ⟨200, "r", ⟨[]⟩⟩).entries ≠
      [(some ⟨"1", "imp", []⟩, BidTypeBanner), (some ⟨"2", "imp", []⟩, BidTypeBanner)] ∧
    (MakeBids bidsJson ⟨[], none, none, none, []⟩ ⟨"", "", "", ⟨[]⟩⟩
        ⟨200, "s", ⟨[]⟩⟩).entries =
      [(some ⟨"1", "imp", []⟩, BidTypeBanner), (some ⟨"2", "imp", []⟩, BidTypeBanner)] := by
  refine ⟨by decide, by decide, by decide⟩

/-- Claim C10.  For a status code other than 200, whatever the body, `MakeBids` returns a
nil response and exactly one error, a BadInput whose message is
"Unexpected status code c with error message 'h'" with c the status code in decimal and h
the first value of the header x-fb-an-errors, empty when the header is absent. -/
theorem MakeBids_non_success_status (J : Json) (request : BidRequest)
    (adapterRequest : RequestData) (response : ResponseData)
    (h : response.StatusCode ≠ 200) :
    (MakeBids J request adapterRequest response).response = none ∧
    (MakeBids J request adapterRequest response).errs =
      [.BadInput ("Unexpected status code " ++ toString response.StatusCode ++
        " with error message '" ++ response.Headers.Get "x-fb-an-errors" ++ "'")] ∧
    (MakeBids J request adapterRequest response).errs.length = 1 ∧
    (∀ v vs, response.Headers.entries.lookup "X-Fb-An-Errors" = some (v :: vs) →
      response.Headers.Get "x-fb-an-errors" = v) ∧
    (response.Headers.entries.lookup "X-Fb-An-Errors" = none →
      response.Headers.Get "x-fb-an-errors" = "") := by
  have hkey : canonicalMIMEHeaderKey "x-fb-an-errors" = "X-Fb-An-Errors" := by decide
  refine ⟨?_, ?_, ?_, ?_, ?_⟩
  · simp [MakeBids, h]
  · simp [MakeBids, h]
  · simp [MakeBids, h]
  · intro v vs hv
    simp [Header.Get, hkey, hv]
  · intro hv
    simp [Header.Get, hkey, hv]

/-- The witness of C10: status 400 with the header value "rejected". -/
theorem MakeBids_non_success_status_witness :
    ((400 : Int) ≠ 200 ∧
      (MakeBids bidsJson ⟨[], none, none, none, []⟩ ⟨"", "", "", ⟨[]⟩⟩
        ⟨400, "r", ⟨[("X-Fb-An-Errors", ["rejected"])]⟩⟩).errs =
      [.BadInput "Unexpected status code 400 with error message 'rejected'"]) ∧
    (MakeBids bidsJson ⟨[], none, none, none, []⟩ ⟨"", "", "", ⟨[]⟩⟩
        ⟨400, "r", ⟨[("X-Fb-An-Errors", ["rejected"])]⟩⟩).response = none ∧
    (MakeBids bidsJson ⟨[], none, none, none, []⟩ ⟨"", "", "", ⟨[]⟩⟩
        ⟨400, "r", ⟨[("X-Fb-An-Errors", ["rejected"])]⟩⟩).errs =
      [.BadInput ("Unexpected status code " ++ toString (400 : Int) ++
        " with error message '" ++
        (Header.mk [("X-Fb-An-Errors", ["rejected"])]).Get "x-fb-an-errors" ++ "'")] ∧
    (MakeBids bidsJson ⟨[], none, none, none, []⟩ ⟨"", "", "", ⟨[]⟩⟩
        ⟨400, "r", ⟨[("X-Fb-An-Errors", ["rejected"])]⟩⟩).errs.length = 1 ∧
    (∀ v vs, (Header.mk [("X-Fb-An-Errors", ["rejected"])]).entries.lookup "X-Fb-An-Errors"
        = some (v :: vs) →
      (Header.mk [("X-Fb-An-Errors", ["rejected"])]).Get "x-fb-an-errors" = v) ∧
    ((Header.mk [("X-Fb-An-Errors", ["rejected"])]).entries.lookup "X-Fb-An-Errors" = none →
      (Header.mk [("X-Fb-An-Errors", ["rejected"])]).Get "x-fb-an-errors" = "") :=
  ⟨⟨by decide, by decide⟩,
    MakeBids_non_success_status bidsJson ⟨[], none, none, none, []⟩ ⟨"", "", "", ⟨[]⟩⟩
      ⟨400, "r", ⟨[("X-Fb-An-Errors", ["rejected"])]⟩⟩ (by decide)⟩

/-! ## The identifier parser, error cases -/

/-- Three or more pieces fall through to the last branch of the parser. -/
theorem extractPlmtAndPub_of_three_tokens (J : Json) (out : Imp) (bidderExt : ExtImpBidder)
    (fbExt : ExtImpFacebook) (h1 : J.unmarshalExtImpBidder out.Ext = .ok bidderExt)
    (h2 : J.unmarshalExtImpFacebook bidderExt.Bidder = .ok fbExt)
    (hlen : 3 ≤ (stringsSplitUnderscore fbExt.PlacementId).length) :
    extractPlmtAndPub J out =
      .error (.BadInput ("Invalid placementId param '" ++ fbExt.PlacementId ++
        "' and publisherId param '" ++ fbExt.PublisherId ++ "'")) := by
  have hne : fbExt.PlacementId ≠ "" := by
    intro e
    rw [e] at hlen
    revert hlen
    decide
  rw [extractPlmtAndPub_decoded J out bidderExt fbExt h1 h2 hne]
  rcases hs : stringsSplitUnderscore fbExt.PlacementId with _ | ⟨a, _ | ⟨b, _ | ⟨c, l⟩⟩⟩
  · simp [hs] at hlen
  · simp [hs] at hlen
  · simp [hs] at hlen
  · rfl

/-- Claim C11.  When the extension decodes with an empty placementId the parser fails with
the BadInput error "Missing placementId param", whatever the decoded publisherId is. -/
theorem extractPlmtAndPub_missing_placementId (J : Json) (out : Imp)
    (bidderExt : ExtImpBidder) (fbExt : ExtImpFacebook)
    (h1 : J.unmarshalExtImpBidder out.Ext = .ok bidderExt)
    (h2 : J.unmarshalExtImpFacebook bidderExt.Bidder = .ok fbExt)
    (hempty : fbExt.PlacementId = "") :
    extractPlmtAndPub J out = .error (.BadInput "Missing placementId param") := by
  unfold extractPlmtAndPub
  simp only [h1, h2, if_pos hempty]

/-- The witness of C11: an empty placementId, once with an empty and once with a non-empty
publisherId. -/
theorem extractPlmtAndPub_missing_placementId_witness :
    extractPlmtAndPub (tableJson [("d", ⟨"", ""⟩)] []) ⟨"", some "d", []⟩
      = .error (.BadInput "Missing placementId param") ∧
    extractPlmtAndPub (tableJson [("d", ⟨"", "123"⟩)] []) ⟨"", some "d", []⟩
      = .error (.BadInput "Missing placementId param") :=
  ⟨extractPlmtAndPub_missing_placementId (tableJson [("d", ⟨"", ""⟩)] [])
      ⟨"", some "d", []⟩ ⟨some "d"⟩ ⟨"", ""⟩ (by rfl) (by rfl) rfl,
    extractPlmtAndPub_missing_placementId (tableJson [("d", ⟨"", "123"⟩)] [])
      ⟨"", some "d", []⟩ ⟨some "d"⟩ ⟨"", "123"⟩ (by rfl) (by rfl) rfl⟩

/-- Claim C12.  When the decoded placementId contains two or more underscores it splits
into three or more tokens, and whatever the decoded publisherId is the parser fails with the
BadInput error "Invalid placementId param 'placementId' and publisherId param 'publisherId'"
built from the two decoded fields as they were supplied. -/
theorem extractPlmtAndPub_malformed_composite (J : Json) (out : Imp)
    (bidderExt : ExtImpBidder) (fbExt : ExtImpFacebook)
    (h1 : J.unmarshalExtImpBidder out.Ext = .ok bidderExt)
    (h2 : J.unmarshalExtImpFacebook bidderExt.Bidder = .ok fbExt)
    (hmany : 2 ≤ fbExt.PlacementId.data.count '_') :
    3 ≤ (stringsSplitUnderscore fbExt.PlacementId).length ∧
    extractPlmtAndPub J out =
      .error (.BadInput ("Invalid placementId param '" ++ fbExt.PlacementId ++
        "' and publisherId param '" ++ fbExt.PublisherId ++ "'")) := by
  have hlen : 3 ≤ (stringsSplitUnderscore fbExt.PlacementId).length := by
    unfold stringsSplitUnderscore
    rw [List.length_map, length_splitChars]
    omega
  exact ⟨hlen, extractPlmtAndPub_of_three_tokens J out bidderExt fbExt h1 h2 hlen⟩

/-- The witness of C12: placementId "1_2_3" with publisherId "zzz". -/
theorem extractPlmtAndPub_malformed_composite_witness :
    (2 ≤ "1_2_3".data.count '_' ∧
      extractPlmtAndPub (tableJson [("d", ⟨"1_2_3", "zzz"⟩)] []) ⟨"", some "d", []⟩ =
        .error (.BadInput "Invalid placementId param '1_2_3' and publisherId param 'zzz'")) ∧
    3 ≤ (stringsSplitUnderscore "1_2_3").length ∧
    extractPlmtAndPub (tableJson [("d", ⟨"1_2_3", "zzz"⟩)] []) ⟨"", some "d", []⟩ =
      .error (.BadInput ("Invalid placementId param '" ++ "1_2_3" ++
        "' and publisherId param '" ++ "zzz" ++ "'")) :=
  ⟨⟨by decide, by decide⟩,
    extractPlmtAndPub_malformed_composite (tableJson [("d", ⟨"1_2_3", "zzz"⟩)] [])
      ⟨"", some "d", []⟩ ⟨some "d"⟩ ⟨"1_2_3", "zzz"⟩ (by rfl) (by rfl) (by decide)⟩

/-! ## The configured platform identifier -/

/-- Counterexample to C13.  The adapter constructed with the platform identifier "p" builds
a request whose top-level extension is the serialization of the object with platformid
"873801679416180", not of the object with platformid "p". -/
theorem NewFacebookBidder_ignores_platformId :
    (NewFacebookBidder "p").platformId ≠ "p" ∧
    MakeRequests (NewFacebookBidder "p") extJson sampleSiteRequest =
      some ([⟨"POST", "https://an.facebook.com/placementbid.ortb",
        "platformid=873801679416180", requestHeaders⟩], []) ∧
    extJson.marshalReqExt ⟨"p"⟩ = .ok "platformid=p" ∧
    MakeRequests (NewFacebookBidder "p") extJson sampleSiteRequest ≠
      some ([⟨"POST", "https://an.facebook.com/placementbid.ortb",
        "platformid=p", requestHeaders⟩], []) := by
  refine ⟨by decide, by decide, by decide, by decide⟩

/-- Claim C13, amended.  Whatever platform identifier is passed to `NewFacebookBidder`, the
adapter holds the platform identifier "873801679416180" and the URI
"https://an.facebook.com/placementbid.ortb"; every request it builds goes to that URI and
is the serialization of a copy whose top-level extension is the serialization of the object
with the single field platformid "873801679416180", whatever the top-level extension of the
inbound request was. -/
theorem NewFacebookBidder_requests (p : String) (J : Json) (request : BidRequest)
    (reqs : List RequestData) (errs : List GoError)
    (h : MakeRequests (NewFacebookBidder p) J request = some (reqs, errs))
    (rd : RequestData) (hrd : rd ∈ reqs) :
    (NewFacebookBidder p).platformId = "873801679416180" ∧
    (NewFacebookBidder p).URI = "https://an.facebook.com/placementbid.ortb" ∧
    rd.Uri = "https://an.facebook.com/placementbid.ortb" ∧
    ∃ imp ∈ request.Imp, ∃ plmtId pubId ext fbreq,
      J.marshalReqExt ⟨"873801679416180"⟩ = .ok ext ∧
      perImpRequest request ext imp plmtId pubId = some fbreq ∧
      J.marshalBidRequest fbreq = .ok rd.Body ∧
      fbreq.Ext = some ext := by
  obtain ⟨imp, himp, plmtId, pubId, fbreq, _, ⟨ext, hext, hreq⟩, hb, _, hu, _⟩ :=
    MakeRequests_sound (NewFacebookBidder p) J request reqs errs h rd hrd
  obtain ⟨_, hExt, _⟩ := perImpRequest_shape request ext imp plmtId pubId fbreq hreq
  exact ⟨rfl, rfl, hu, imp, himp, plmtId, pubId, ext, fbreq, hext, hreq, hb, hExt⟩

/-- The witness of C13, amended: the adapter constructed with "p" on the request with a
`Site`, whose own top-level extension is nil. -/
theorem NewFacebookBidder_requests_witness :
    MakeRequests (NewFacebookBidder "p") extJson sampleSiteRequest =
      some ([⟨"POST", "https://an.facebook.com/placementbid.ortb",
        "platformid=873801679416180", requestHeaders⟩], []) ∧
    (NewFacebookBidder "p").platformId = "873801679416180" ∧
    (NewFacebookBidder "p").URI = "https://an.facebook.com/placementbid.ortb" ∧
    (RequestData.mk "POST" "https://an.facebook.com/placementbid.ortb"
        "platformid=873801679416180" requestHeaders).Uri =
      "https://an.facebook.com/placementbid.ortb" ∧
    ∃ imp ∈ sampleSiteRequest.Imp, ∃ plmtId pubId ext fbreq,
      extJson.marshalReqExt ⟨"873801679416180"⟩ = .ok ext ∧
      perImpRequest sampleSiteRequest ext imp plmtId pubId = some fbreq ∧
      extJson.marshalBidRequest fbreq = .ok "platformid=873801679416180" ∧
      fbreq.Ext = some ext :=
  ⟨by decide,
    NewFacebookBidder_requests "p" extJson sampleSiteRequest
      [⟨"POST", "https://an.facebook.com/placementbid.ortb", "platformid=873801679416180",
        requestHeaders⟩] [] (by decide)
      ⟨"POST", "https://an.facebook.com/placementbid.ortb", "platformid=873801679416180",
        requestHeaders⟩ (List.mem_singleton.mpr rfl)⟩

/-! ## The response mapper, result forms -/

/-- Seat groupings without bids append nothing. -/
theorem seatLoop_of_no_bids (seats : List SeatBid) (hall : ∀ sb ∈ seats, sb.Bid = [])
    (store : List Bid) (bids : List TypedBid) :
    (seatLoop seats store bids).2 = bids := by
  induction seats generalizing store with
  | nil => rfl
  | cons sb sbs ih =>
    have hsb : sb.Bid = [] := hall sb (List.mem_cons_self _ _)
    rw [seatLoop]
    simp only [hsb, bidLoop]
    exact ih (fun x hx => hall x (List.mem_cons_of_mem _ hx)) _

/-- Claim C15.  `MakeBids` returns either a response and no error, or no response and at
least one error.  It returns no response exactly when the status is not 200 or the body
does not decode.  For status 200 a decode failure comes back as the one error of the
decoder itself, not as a BadInput, and a decoded envelope whose seat groupings (if any)
hold no bid gives a response with an empty bid list and no error. -/
theorem MakeBids_result_forms (J : Json) (request : BidRequest)
    (adapterRequest : RequestData) (response : ResponseData) :
    (((MakeBids J request adapterRequest response).response ≠ none ∧
        (MakeBids J request adapterRequest response).errs = []) ∨
      ((MakeBids J request adapterRequest response).response = none ∧
        (MakeBids J request adapterRequest response).errs ≠ [])) ∧
    ((MakeBids J request adapterRequest response).response = none ↔
      (response.StatusCode ≠ 200 ∨
        ∃ msg, J.unmarshalBidResponse response.Body = .error msg)) ∧
    (response.StatusCode = 200 → ∀ msg,
      J.unmarshalBidResponse response.Body = .error msg →
      (MakeBids J request adapterRequest response).errs = [.jsonError msg] ∧
      (GoError.jsonError msg).isBadInput = false) ∧
    (response.StatusCode = 200 → ∀ bidResp,
      J.unmarshalBidResponse response.Body = .ok bidResp →
      (∀ sb ∈ bidResp.SeatBid, sb.Bid = []) →
      (MakeBids J request adapterRequest response).response = some ⟨[]⟩ ∧
      (MakeBids J request adapterRequest response).errs = []) := by
  by_cases hs : response.StatusCode = 200
  · cases hd : J.unmarshalBidResponse response.Body with
    | error msg =>
      refine ⟨Or.inr ?_, ?_, ?_, ?_⟩
      · simp [MakeBids, hs, hd]
      · simp [MakeBids, hs, hd]
      · intro _ msg' hmsg
        cases hmsg
        simp [MakeBids, hs, hd, GoError.isBadInput]
      · intro _ bidResp hb
        cases hb
    | ok bidResp =>
      refine ⟨Or.inl ?_, ?_, ?_, ?_⟩
      · simp [MakeBids, hs, hd]
      · simp [MakeBids, hs, hd]
      · intro _ msg hmsg
        cases hmsg
      · intro _ bidResp' hb hall
        cases hb
        simp [MakeBids, hs, hd, seatLoop_of_no_bids bidResp.SeatBid hall]
  · refine ⟨Or.inr ?_, ?_, fun h => absurd h hs, fun h => absurd h hs⟩
    · simp [MakeBids, hs]
    · simp [MakeBids, hs]

/-- The witness of C15: status 200 with a body of two seat groupings without bids, and
status 200 with a body the decoder rejects. -/
theorem MakeBids_result_forms_witness :
    (MakeBids emptyBidsJson ⟨[], none, none, none, []⟩ ⟨"", "", "", ⟨[]⟩⟩
        ⟨200, "empty", ⟨[]⟩⟩).response = some ⟨[]⟩ ∧
    (MakeBids emptyBidsJson ⟨[], none, none, none, []⟩ ⟨"", "", "", ⟨[]⟩⟩
        ⟨200, "empty", ⟨[]⟩⟩).errs = [] ∧
    (MakeBids emptyBidsJson ⟨[], none, none, none, []⟩ ⟨"", "", "", ⟨[]⟩⟩
        ⟨200, "garbage", ⟨[]⟩⟩).errs = [.jsonError "invalid character"] ∧
    (GoError.jsonError "invalid character").isBadInput = false :=
  ⟨((MakeBids_result_forms emptyBidsJson ⟨[], none, none, none, []⟩ ⟨"", "", "", ⟨[]⟩⟩
      ⟨200, "empty", ⟨[]⟩⟩).2.2.2 rfl ⟨[⟨[], []⟩, ⟨[], [("seat", "s")]⟩], []⟩ (by rfl)
      (by decide)).1,
    by decide,
    ((MakeBids_result_forms emptyBidsJson ⟨[], none, none, none, []⟩ ⟨"", "", "", ⟨[]⟩⟩
      ⟨200, "garbage", ⟨[]⟩⟩).2.2.1 rfl "invalid character" (by rfl)).1,
    rfl⟩

/-! ## The request builder, failures -/

/-- A copy can only be completed when the request has an `App` or a `Site`. -/
theorem app_or_site_of_perImpRequest (request : BidRequest) (ext : String) (imp : Imp)
    (plmtId pubId : String) (fbreq : BidRequest)
    (h : perImpRequest request ext imp plmtId pubId = some fbreq) :
    request.App ≠ none ∨ request.Site ≠ none := by
  obtain ⟨imps, site, app, rext, rest⟩ := request
  cases app with
  | some app => exact Or.inl (by simp)
  | none =>
    cases site with
    | some site => exact Or.inr (by simp)
    | none => simp [perImpRequest, injectPublisher] at h

/-- The loop over a first part of the impressions on which every pass of the body that gets
past the parser also gets past both serializations and the publisher injection: it goes on
with the rest, having appended one error per rejected impression. -/
theorem makeRequestsLoop_append (this : FacebookAdapter) (J : Json) (request : BidRequest)
    (pre rest : List Imp)
    (hpass : ∀ imp ∈ pre, ∀ plmtId pubId, extractPlmtAndPub J imp = .ok (plmtId, pubId) →
      ∃ ext fbreq body, J.marshalReqExt ⟨this.platformId⟩ = .ok ext ∧
        perImpRequest request ext imp plmtId pubId = some fbreq ∧
        J.marshalBidRequest fbreq = .ok body)
    (reqs : List RequestData) (errs : List GoError) :
    ∃ built : List RequestData,
      makeRequestsLoop this J request requestHeaders (pre ++ rest) reqs errs =
        makeRequestsLoop this J request requestHeaders rest (reqs ++ built)
          (errs ++ parseErrors J pre) := by
  induction pre generalizing reqs errs with
  | nil => exact ⟨[], by simp [parseErrors]⟩
  | cons imp imps ih =>
    have hpass' : ∀ i ∈ imps, ∀ plmtId pubId, extractPlmtAndPub J i = .ok (plmtId, pubId) →
        ∃ ext fbreq body, J.marshalReqExt ⟨this.platformId⟩ = .ok ext ∧
          perImpRequest request ext i plmtId pubId = some fbreq ∧
          J.marshalBidRequest fbreq = .ok body :=
      fun i hi => hpass i (List.mem_cons_of_mem _ hi)
    cases h : extractPlmtAndPub J imp with
    | error e =>
      obtain ⟨built, hrun⟩ := ih hpass' reqs (errs ++ [e])
      refine ⟨built, ?_⟩
      rw [List.cons_append,
        makeRequestsLoop_cons_error this J request _ imp (imps ++ rest) reqs errs e h, hrun,
        parseErrors_cons_error J imp imps e h]
      simp
    | ok p =>
      obtain ⟨plmtId, pubId⟩ := p
      obtain ⟨ext, fbreq, body, hext, hreq, hbody⟩ :=
        hpass imp (List.mem_cons_self _ _) plmtId pubId h
      obtain ⟨built, hrun⟩ :=
        ih hpass' (reqs ++ [⟨"POST", this.URI, body, requestHeaders⟩]) errs
      refine ⟨⟨"POST", this.URI, body, requestHeaders⟩ :: built, ?_⟩
      rw [List.cons_append,
        makeRequestsLoop_cons_ok this J request _ imp (imps ++ rest) reqs errs plmtId pubId
          ext body fbreq h hext hreq hbody, hrun, parseErrors_cons_ok J imp imps _ h]
      simp

/-- Claim C16.  When the copy built for the impression `impk` is the first whose
serialization fails, `MakeRequests` returns no request at all, and as errors the parse
errors of the impressions before `impk` in input order followed by the serialization error.
The impressions after `impk` play no part: the loop gives the same result whatever
follows `impk`. -/
theorem MakeRequests_serialization_failure (this : FacebookAdapter) (J : Json)
    (request : BidRequest) (pre : List Imp) (impk : Imp) (post : List Imp)
    (ext plmtId pubId msg : String) (fbreq : BidRequest)
    (hImp : request.Imp = pre ++ impk :: post)
    (hext : J.marshalReqExt ⟨this.platformId⟩ = .ok ext)
    (hpre : ∀ imp ∈ pre, ∀ pl pub fb, extractPlmtAndPub J imp = .ok (pl, pub) →
      perImpRequest request ext imp pl pub = some fb →
      ∃ body, J.marshalBidRequest fb = .ok body)
    (hk : extractPlmtAndPub J impk = .ok (plmtId, pubId))
    (hreq : perImpRequest request ext impk plmtId pubId = some fbreq)
    (hfail : J.marshalBidRequest fbreq = .error msg) :
    MakeRequests this J request = some ([], parseErrors J pre ++ [.jsonError msg]) ∧
    ∀ post', makeRequestsLoop this J request requestHeaders (pre ++ impk :: post') [] [] =
      some ([], parseErrors J pre ++ [.jsonError msg]) := by
  have happ := app_or_site_of_perImpRequest request ext impk plmtId pubId fbreq hreq
  have hpass : ∀ imp ∈ pre, ∀ pl pub, extractPlmtAndPub J imp = .ok (pl, pub) →
      ∃ ext fb body, J.marshalReqExt ⟨this.platformId⟩ = .ok ext ∧
        perImpRequest request ext imp pl pub = some fb ∧
        J.marshalBidRequest fb = .ok body := by
    intro imp himp pl pub hx
    obtain ⟨fb, hfb⟩ := perImpRequest_isSome request ext imp pl pub happ
    obtain ⟨body, hb⟩ := hpre imp himp pl pub fb hx hfb
    exact ⟨ext, fb, body, hext, hfb, hb⟩
  have hloop : ∀ post', makeRequestsLoop this J request requestHeaders
      (pre ++ impk :: post') [] [] = some ([], parseErrors J pre ++ [.jsonError msg]) := by
    intro post'
    obtain ⟨built, hrun⟩ :=
      makeRequestsLoop_append this J request pre (impk :: post') hpass [] []
    rw [hrun, makeRequestsLoop, hk]
    simp only [hext, hreq, hfail, List.nil_append]
  refine ⟨?_, hloop⟩
  have hne : request.Imp.length ≠ 0 := by
    rw [hImp]
    simp
  unfold MakeRequests
  rw [if_neg hne, hImp]
  exact hloop post

/-- The witness of C16: the third of four impressions cannot be serialized; the request
built for the second is not returned and the fourth is not looked at. -/
theorem MakeRequests_serialization_failure_witness :
    MakeRequests sampleAdapter failingJson sampleFailingRequest =
      some ([], [.BadInput "invalid character", .jsonError "json: unsupported value"]) ∧
    MakeRequests sampleAdapter failingJson sampleFailingRequest =
      some ([], parseErrors failingJson [⟨"", some "e", []⟩, ⟨"", some "d", []⟩] ++
        [.jsonError "json: unsupported value"]) ∧
    ∀ post', makeRequestsLoop sampleAdapter failingJson sampleFailingRequest requestHeaders
        ([⟨"", some "e", []⟩, ⟨"", some "d", []⟩] ++ ⟨"", some "m", []⟩ :: post') [] [] =
      some ([], parseErrors failingJson [⟨"", some "e", []⟩, ⟨"", some "d", []⟩] ++
        [.jsonError "json: unsupported value"]) :=
  ⟨by decide,
    MakeRequests_serialization_failure sampleAdapter failingJson sampleFailingRequest
      [⟨"", some "e", []⟩, ⟨"", some "d", []⟩] ⟨"", some "m", []⟩ [⟨"", some "d", []⟩]
      "platformid=873801679416180" "xyz" "456" "json: unsupported value"
      ⟨[⟨"456_xyz", none, []⟩], none, some ⟨some ⟨"456", []⟩, []⟩,
        some "platformid=873801679416180", []⟩
      (by rfl) (by rfl)
      (by
        intro imp himp pl pub fb hx hfb
        simp only [List.mem_cons, List.mem_singleton, List.not_mem_nil, or_false] at himp
        rcases himp with rfl | rfl
        · have h0 : extractPlmtAndPub failingJson ⟨"", some "e", []⟩ =
              .error (.BadInput "invalid character") := by decide
          rw [h0] at hx
          cases hx
        · have hp : (pl, pub) = ("abc", "123") := by
            have h0 : extractPlmtAndPub failingJson ⟨"", some "d", []⟩ = .ok ("abc", "123") := by
              decide
            rw [h0] at hx
            cases hx
            rfl
          cases hp
          have hv : fb = ⟨[⟨"123_abc", none, []⟩], none, some ⟨some ⟨"123", []⟩, []⟩,
              some "platformid=873801679416180", []⟩ := by
            have h0 : perImpRequest sampleFailingRequest "platformid=873801679416180"
                ⟨"", some "d", []⟩ "abc" "123" =
                some ⟨[⟨"123_abc", none, []⟩], none, some ⟨some ⟨"123", []⟩, []⟩,
                  some "platformid=873801679416180", []⟩ := by decide
            rw [h0] at hfb
            cases hfb
            rfl
          subst hv
          exact ⟨"123_abc", by decide⟩)
      (by decide) (by decide) (by decide)⟩

/-! ## The dereference of `Site` -/

/-- With an `App` or a `Site` the loop returns. -/
theorem makeRequestsLoop_returns (this : FacebookAdapter) (J : Json) (request : BidRequest)
    (happ : request.App ≠ none ∨ request.Site ≠ none) (imps : List Imp)
    (reqs : List RequestData) (errs : List GoError) :
    ∃ r, makeRequestsLoop this J request requestHeaders imps reqs errs = some r := by
  induction imps generalizing reqs errs with
  | nil =>
    rw [makeRequestsLoop]
    split_ifs
    · exact ⟨_, rfl⟩
    · exact ⟨_, rfl⟩
  | cons imp imps ih =>
    rw [makeRequestsLoop]
    cases hx : extractPlmtAndPub J imp with
    | error e => exact ih _ _
    | ok p =>
      obtain ⟨plmtId, pubId⟩ := p
      simp only
      cases hext : J.marshalReqExt ⟨this.platformId⟩ with
      | error msg => exact ih _ _
      | ok ext =>
        obtain ⟨fbreq, hreq⟩ := perImpRequest_isSome request ext imp plmtId pubId happ
        simp only [hreq]
        cases hbody : J.marshalBidRequest fbreq with
        | error msg => exact ⟨_, rfl⟩
        | ok body => exact ih _ _

/-- When no impression gets past the parser the loop runs to its end and has appended one
error per impression. -/
theorem makeRequestsLoop_of_all_fail (this : FacebookAdapter) (J : Json)
    (request : BidRequest) (imps : List Imp)
    (hall : ∀ imp ∈ imps, ∃ e, extractPlmtAndPub J imp = .error e)
    (reqs : List RequestData) (errs : List GoError) :
    makeRequestsLoop this J request requestHeaders imps reqs errs =
      makeRequestsLoop this J request requestHeaders [] reqs (errs ++ parseErrors J imps) := by
  induction imps generalizing errs with
  | nil => simp [parseErrors]
  | cons imp imps ih =>
    obtain ⟨e, he⟩ := hall imp (List.mem_cons_self _ _)
    rw [makeRequestsLoop_cons_error this J request _ imp imps reqs errs e he,
      ih (fun i hi => hall i (List.mem_cons_of_mem _ hi)), parseErrors_cons_error J imp imps e he]
    simp

/-- Without `App` and `Site` the loop stops on the nil dereference at the first impression
that gets past the parser, provided the extension object can be serialized. -/
theorem makeRequestsLoop_nil_site (this : FacebookAdapter) (J : Json) (request : BidRequest)
    (hA : request.App = none) (hS : request.Site = none) (ext : String)
    (hext : J.marshalReqExt ⟨this.platformId⟩ = .ok ext) (imps : List Imp)
    (hvalid : ∃ imp ∈ imps, ∃ p, extractPlmtAndPub J imp = .ok p)
    (reqs : List RequestData) (errs : List GoError) :
    makeRequestsLoop this J request requestHeaders imps reqs errs = none := by
  induction imps generalizing errs with
  | nil =>
    obtain ⟨imp, himp, _⟩ := hvalid
    simp at himp
  | cons imp imps ih =>
    cases hx : extractPlmtAndPub J imp with
    | error e =>
      rw [makeRequestsLoop_cons_error this J request _ imp imps reqs errs e hx]
      apply ih
      obtain ⟨i, hi, p, hp⟩ := hvalid
      rcases List.mem_cons.mp hi with rfl | hi'
      · rw [hx] at hp
        cases hp
      · exact ⟨i, hi', p, hp⟩
    | ok p =>
      obtain ⟨plmtId, pubId⟩ := p
      have hreq : perImpRequest request ext imp plmtId pubId = none := by
        obtain ⟨rimps, site, app, rext, rest⟩ := request
        simp only at hA hS
        subst hA hS
        rfl
      rw [makeRequestsLoop, hx]
      simp only [hext, hreq]

/-- Claim C17.  When the inbound request has an `App` or a `Site`, `MakeRequests` returns,
whatever the impressions are.  When it does not return, the request has neither `App` nor
`Site` and one of its impressions gets past the parser; without `App` and `Site`, with such
an impression and a serializable extension object, it indeed does not return.  When no
impression gets past the parser it returns no request and at least one error, also
without `App` and `Site`. -/
theorem MakeRequests_site_dereference (this : FacebookAdapter) (J : Json)
    (request : BidRequest) :
    (request.App ≠ none ∨ request.Site ≠ none →
      ∃ reqs errs, MakeRequests this J request = some (reqs, errs)) ∧
    (MakeRequests this J request = none →
      request.App = none ∧ request.Site = none ∧
      ∃ imp ∈ request.Imp, ∃ p, extractPlmtAndPub J imp = .ok p) ∧
    (request.App = none → request.Site = none →
      (∃ ext, J.marshalReqExt ⟨this.platformId⟩ = .ok ext) →
      (∃ imp ∈ request.Imp, ∃ p, extractPlmtAndPub J imp = .ok p) →
      MakeRequests this J request = none) ∧
    ((∀ imp ∈ request.Imp, ∃ e, extractPlmtAndPub J imp = .error e) →
      ∃ errs, MakeRequests this J request = some ([], errs) ∧ errs ≠ []) := by
  have hret : request.App ≠ none ∨ request.Site ≠ none →
      ∃ reqs errs, MakeRequests this J request = some (reqs, errs) := by
    intro happ
    unfold MakeRequests
    split_ifs
    · exact ⟨_, _, rfl⟩
    · obtain ⟨⟨reqs, errs⟩, hr⟩ :=
        makeRequestsLoop_returns this J request happ request.Imp [] []
      exact ⟨reqs, errs, hr⟩
  have hfail : (∀ imp ∈ request.Imp, ∃ e, extractPlmtAndPub J imp = .error e) →
      ∃ errs, MakeRequests this J request = some ([], errs) ∧ errs ≠ [] := by
    intro hall
    unfold MakeRequests
    split_ifs
    · exact ⟨_, rfl, by simp⟩
    · rw [makeRequestsLoop_of_all_fail this J request request.Imp hall [] [], makeRequestsLoop]
      exact ⟨parseErrors J request.Imp ++ [.BadInput "no valid impressions provided"],
        by simp, by simp⟩
  refine ⟨hret, ?_, ?_, hfail⟩
  · intro hnone
    refine ⟨?_, ?_, ?_⟩
    · by_contra hA
      obtain ⟨reqs, errs, hr⟩ := hret (Or.inl hA)
      rw [hnone] at hr
      cases hr
    · by_contra hS
      obtain ⟨reqs, errs, hr⟩ := hret (Or.inr hS)
      rw [hnone] at hr
      cases hr
    · by_contra hno
      have hall : ∀ imp ∈ request.Imp, ∃ e, extractPlmtAndPub J imp = .error e := by
        intro imp himp
        cases hx : extractPlmtAndPub J imp with
        | error e => exact ⟨e, rfl⟩
        | ok p => exact absurd ⟨imp, himp, p, hx⟩ hno
      obtain ⟨errs, hr, _⟩ := hfail hall
      rw [hnone] at hr
      cases hr
  · rintro hA hS ⟨ext, hext⟩ hvalid
    have hne : request.Imp.length ≠ 0 := by
      obtain ⟨imp, himp, _⟩ := hvalid
      exact Nat.pos_iff_ne_zero.mp (List.length_pos_of_mem himp)
    unfold MakeRequests
    rw [if_neg hne]
    exact makeRequestsLoop_nil_site this J request hA hS ext hext request.Imp hvalid [] []

/-- The witness of C17: the request with a `Site` returns; the request without `App` and
`Site` returns with errors when its impressions are rejected, and does not return when its
impression is valid. -/
theorem MakeRequests_site_dereference_witness :
    (∃ reqs errs, MakeRequests sampleAdapter sampleJson sampleSiteRequest = some (reqs, errs)) ∧
    (∃ errs, MakeRequests sampleAdapter sampleJson sampleInvalidRequest = some ([], errs) ∧
      errs ≠ []) ∧
    MakeRequests sampleAdapter sampleJson sampleBareRequest = none :=
  ⟨(MakeRequests_site_dereference sampleAdapter sampleJson sampleSiteRequest).1
      (Or.inr (by decide)),
    (MakeRequests_site_dereference sampleAdapter sampleJson sampleInvalidRequest).2.2.2
      (by
        intro imp himp
        simp only [sampleInvalidRequest, List.mem_cons, List.mem_singleton,
          List.not_mem_nil, or_false] at himp
        rcases himp with rfl | rfl
        · exact ⟨.BadInput "unexpected end of JSON input", by decide⟩
        · exact ⟨.BadInput "invalid character", by decide⟩),
    (MakeRequests_site_dereference sampleAdapter sampleJson sampleBareRequest).2.2.1
      rfl rfl ⟨"platformid=873801679416180", by rfl⟩
      ⟨⟨"", some "d", []⟩, by decide, ("abc", "123"), by decide⟩⟩

/-! ## The two formats of the identifiers -/

/-- The parser on a decoded legacy identifier `P_L`. -/
theorem extractPlmtAndPub_of_legacy (J : Json) (out : Imp) (bidderExt : ExtImpBidder)
    (P L X : String) (h1 : J.unmarshalExtImpBidder out.Ext = .ok bidderExt)
    (h2 : J.unmarshalExtImpFacebook bidderExt.Bidder = .ok ⟨P ++ "_" ++ L, X⟩)
    (hP : '_' ∉ P.data) (hL : '_' ∉ L.data) :
    extractPlmtAndPub J out = .ok (L, P) := by
  have hdata : (P ++ "_" ++ L).data = P.data ++ '_' :: L.data := by
    simp [String.data_append]
  have hne : (P ++ "_" ++ L) ≠ "" := by
    intro e
    have := congrArg String.data e
    rw [hdata] at this
    simp at this
  have hsplit : stringsSplitUnderscore (P ++ "_" ++ L) = [P, L] := by
    unfold stringsSplitUnderscore
    rw [hdata, splitChars_append_sep _ _ _ hP, splitChars_of_not_mem _ _ hL]
    rfl
  rw [extractPlmtAndPub_decoded J out bidderExt ⟨P ++ "_" ++ L, X⟩ h1 h2 hne]
  simp only [hsplit]

/-- The parser on decoded modern identifiers. -/
theorem extractPlmtAndPub_of_modern (J : Json) (out : Imp) (bidderExt : ExtImpBidder)
    (P L : String) (h1 : J.unmarshalExtImpBidder out.Ext = .ok bidderExt)
    (h2 : J.unmarshalExtImpFacebook bidderExt.Bidder = .ok ⟨L, P⟩)
    (hPne : P ≠ "") (hLne : L ≠ "") (hL : '_' ∉ L.data) :
    extractPlmtAndPub J out = .ok (L, P) := by
  have hsplit : stringsSplitUnderscore L = [L] := by
    unfold stringsSplitUnderscore
    rw [splitChars_of_not_mem _ _ hL]
    rfl
  rw [extractPlmtAndPub_decoded J out bidderExt ⟨L, P⟩ h1 h2 hLne]
  simp only [hsplit, if_neg hPne]

/-- The copy built for an impression depends on the request only through `Site`, `App` and
the fields the adapter does not name, and on the impression only through the fields other
than `TagID` and `Ext`. -/
theorem perImpRequest_congr (r1 r2 : BidRequest) (ext : String) (i1 i2 : Imp)
    (plmtId pubId : String) (hS : r1.Site = r2.Site) (hA : r1.App = r2.App)
    (hr : r1.rest = r2.rest) (hi : i1.rest = i2.rest) :
    perImpRequest r1 ext i1 plmtId pubId = perImpRequest r2 ext i2 plmtId pubId := by
  obtain ⟨imps1, site1, app1, ext1, rest1⟩ := r1
  obtain ⟨imps2, site2, app2, ext2, rest2⟩ := r2
  obtain ⟨t1, e1, ir1⟩ := i1
  obtain ⟨t2, e2, ir2⟩ := i2
  simp only at hS hA hr hi
  subst hS hA hr hi
  rfl

/-- The loop gives the same result on two lists of impressions that agree pairwise on the
outcome of the parser and on the fields outside `TagID` and `Ext`. -/
theorem makeRequestsLoop_congr (this : FacebookAdapter) (J : Json) (r1 r2 : BidRequest)
    (hS : r1.Site = r2.Site) (hA : r1.App = r2.App) (hr : r1.rest = r2.rest)
    (imps1 imps2 : List Imp)
    (h : List.Forall₂ (fun i1 i2 => i1.rest = i2.rest ∧
      extractPlmtAndPub J i1 = extractPlmtAndPub J i2) imps1 imps2)
    (reqs : List RequestData) (errs : List GoError) :
    makeRequestsLoop this J r1 requestHeaders imps1 reqs errs =
      makeRequestsLoop this J r2 requestHeaders imps2 reqs errs := by
  induction h generalizing reqs errs with
  | nil => rw [makeRequestsLoop, makeRequestsLoop]
  | cons hhead _ ih =>
    obtain ⟨hrest, hx⟩ := hhead
    rw [makeRequestsLoop, makeRequestsLoop, ← hx]
    cases hx1 : extractPlmtAndPub J _ with
    | error e => exact ih _ _
    | ok p =>
      obtain ⟨plmtId, pubId⟩ := p
      simp only
      cases hext : J.marshalReqExt ⟨this.platformId⟩ with
      | error msg => exact ih _ _
      | ok ext =>
        simp only
        rw [perImpRequest_congr r1 r2 ext _ _ plmtId pubId hS hA hr hrest]
        cases perImpRequest r2 ext _ plmtId pubId with
        | none => rfl
        | some fbreq =>
          simp only
          cases J.marshalBidRequest fbreq with
          | error msg => rfl
          | ok body => exact ih _ _

/-- Impressions that differ at most in the format of their identifiers have the same outcome
of the parser. -/
theorem extractPlmtAndPub_of_sameUpToFormat (J : Json) (i1 i2 : Imp)
    (h : SameUpToFormat J i1 i2) :
    i1.rest = i2.rest ∧ extractPlmtAndPub J i1 = extractPlmtAndPub J i2 := by
  rcases h with rfl | ⟨_, hrest, P, L, X, b1, b2, hPne, hLne, hP, hL, h1, h2, h3, h4⟩
  · exact ⟨rfl, rfl⟩
  · refine ⟨hrest, ?_⟩
    rw [extractPlmtAndPub_of_legacy J i1 b1 P L X h1 h2 hP hL,
      extractPlmtAndPub_of_modern J i2 b2 P L h3 h4 hPne hLne hL]

/-- Claim C18.  For non-empty `P` and `L` without underscore and any `X`, the parser
returns `(L, P)` both on the legacy identifiers (placementId `P_L`, publisherId `X`) and on
the modern identifiers (placementId `L`, publisherId `P`).  Hence `MakeRequests` returns
the same requests and errors for two inbound requests that differ only in the format in
which some impressions carry their identifiers. -/
theorem legacy_modern_equivalent (J : Json) :
    (∀ (out1 out2 : Imp) (b1 b2 : ExtImpBidder) (P L X : String),
      P ≠ "" → L ≠ "" → '_' ∉ P.data → '_' ∉ L.data →
      J.unmarshalExtImpBidder out1.Ext = .ok b1 →
      J.unmarshalExtImpFacebook b1.Bidder = .ok ⟨P ++ "_" ++ L, X⟩ →
      J.unmarshalExtImpBidder out2.Ext = .ok b2 →
      J.unmarshalExtImpFacebook b2.Bidder = .ok ⟨L, P⟩ →
      extractPlmtAndPub J out1 = .ok (L, P) ∧ extractPlmtAndPub J out2 = .ok (L, P)) ∧
    (∀ (this : FacebookAdapter) (request : BidRequest) (imps2 : List Imp),
      List.Forall₂ (SameUpToFormat J) request.Imp imps2 →
      MakeRequests this J request = MakeRequests this J { request with Imp := imps2 }) := by
  constructor
  · intro out1 out2 b1 b2 P L X hPne hLne hP hL h1 h2 h3 h4
    exact ⟨extractPlmtAndPub_of_legacy J out1 b1 P L X h1 h2 hP hL,
      extractPlmtAndPub_of_modern J out2 b2 P L h3 h4 hPne hLne hL⟩
  · intro this request imps2 hsame
    have hlen : request.Imp.length = imps2.length := hsame.length_eq
    have hpair : List.Forall₂ (fun i1 i2 => i1.rest = i2.rest ∧
        extractPlmtAndPub J i1 = extractPlmtAndPub J i2) request.Imp imps2 :=
      hsame.imp (fun i1 i2 h => extractPlmtAndPub_of_sameUpToFormat J i1 i2 h)
    unfold MakeRequests
    simp only [← hlen]
    split_ifs
    · rfl
    · exact makeRequestsLoop_congr this J request { request with Imp := imps2 } rfl rfl rfl
        request.Imp imps2 hpair [] []

/-- The witness of C18: the identifiers "123" and "abc" in the legacy and in the modern
format give the same pair and the same result of `MakeRequests`. -/
theorem legacy_modern_equivalent_witness :
    (extractPlmtAndPub pairJson ⟨"", some "legacy", []⟩ = .ok ("abc", "123") ∧
      extractPlmtAndPub pairJson ⟨"", some "modern", []⟩ = .ok ("abc", "123")) ∧
    MakeRequests sampleAdapter pairJson
        ⟨[⟨"", some "legacy", []⟩], none, some ⟨none, []⟩, none, []⟩ =
      MakeRequests sampleAdapter pairJson
        ⟨[⟨"", some "modern", []⟩], none, some ⟨none, []⟩, none, []⟩ ∧
    MakeRequests sampleAdapter pairJson
        ⟨[⟨"", some "modern", []⟩], none, some ⟨none, []⟩, none, []⟩ =
      some ([⟨"POST", "https://an.facebook.com/placementbid.ortb", "123_abc",
        requestHeaders⟩], []) :=
  ⟨(legacy_modern_equivalent pairJson).1 ⟨"", some "legacy", []⟩ ⟨"", some "modern", []⟩
      ⟨some "legacy"⟩ ⟨some "modern"⟩ "123" "abc" "zzz" (by decide) (by decide) (by decide)
      (by decide) (by rfl) (by rfl) (by rfl) (by rfl),
    (legacy_modern_equivalent pairJson).2 sampleAdapter
      ⟨[⟨"", some "legacy", []⟩], none, some ⟨none, []⟩, none, []⟩ [⟨"", some "modern", []⟩]
      (List.Forall₂.cons
        (Or.inr ⟨rfl, rfl, "123", "abc", "zzz", ⟨some "legacy"⟩, ⟨some "modern"⟩, by decide,
          by decide, by decide, by decide, by rfl, by rfl, by rfl, by rfl⟩)
        List.Forall₂.nil),
    by decide⟩

/-! ## The tag identifier -/

/-- A placementId returned by the parser has no underscore. -/
theorem extractPlmtAndPub_placementId_no_underscore (J : Json) (out : Imp)
    (plmtId pubId : String) (h : extractPlmtAndPub J out = .ok (plmtId, pubId)) :
    '_' ∉ plmtId.data := by
  cases h1 : J.unmarshalExtImpBidder out.Ext with
  | error msg =>
    unfold extractPlmtAndPub at h
    simp [h1] at h
  | ok bidderExt =>
    cases h2 : J.unmarshalExtImpFacebook bidderExt.Bidder with
    | error msg =>
      unfold extractPlmtAndPub at h
      simp [h1, h2] at h
    | ok fbExt =>
      by_cases hempty : fbExt.PlacementId = ""
      · unfold extractPlmtAndPub at h
        simp [h1, h2, hempty] at h
      · rw [extractPlmtAndPub_decoded J out bidderExt fbExt h1 h2 hempty] at h
        have hlen : (stringsSplitUnderscore fbExt.PlacementId).length =
            fbExt.PlacementId.data.count '_' + 1 := by
          unfold stringsSplitUnderscore
          rw [List.length_map, length_splitChars]
        rcases hs : stringsSplitUnderscore fbExt.PlacementId with
          _ | ⟨a, _ | ⟨b, _ | ⟨c, l⟩⟩⟩
        · simp [hs] at hlen
        · rw [hs] at h hlen
          simp only at h
          by_cases hp : fbExt.PublisherId = ""
          · simp [hp] at h
          · simp only [if_neg hp, Except.ok.injEq, Prod.mk.injEq] at h
            rw [← h.1]
            have h0 : fbExt.PlacementId.data.count '_' = 0 := by
              simpa using hlen.symm
            exact List.count_eq_zero.mp h0
        · rw [hs] at h hlen
          simp only [Except.ok.injEq, Prod.mk.injEq] at h
          have hone : fbExt.PlacementId.data.count '_' = 1 := by
            simpa using hlen.symm
          obtain ⟨pub, plmt, _, _, hq, hsplit⟩ :=
            stringsSplitUnderscore_of_count_eq_one fbExt.PlacementId hone
          rw [hs] at hsplit
          simp only [List.cons.injEq, and_true] at hsplit
          rw [← h.1, hsplit.2]
          exact hq
        · rw [hs] at h
          simp at h

/-- The parser on a decoded placementId with exactly one underscore, also when a token is
empty: it succeeds, and the tag identifier `publisherId_placementId` made from the pair it
returns is the decoded placementId itself. -/
theorem extractPlmtAndPub_legacy_round_trip (J : Json) (out : Imp) (bidderExt : ExtImpBidder)
    (fbExt : ExtImpFacebook) (h1 : J.unmarshalExtImpBidder out.Ext = .ok bidderExt)
    (h2 : J.unmarshalExtImpFacebook bidderExt.Bidder = .ok fbExt)
    (hone : fbExt.PlacementId.data.count '_' = 1) :
    ∃ plmtId pubId, extractPlmtAndPub J out = .ok (plmtId, pubId) ∧
      pubId ++ "_" ++ plmtId = fbExt.PlacementId := by
  obtain ⟨pub, plmt, hs, hp, hq, _⟩ :=
    stringsSplitUnderscore_of_count_eq_one fbExt.PlacementId hone
  have h2' : J.unmarshalExtImpFacebook bidderExt.Bidder =
      .ok ⟨pub ++ "_" ++ plmt, fbExt.PublisherId⟩ := by
    rw [h2, ← hs]
  exact ⟨plmt, pub,
    extractPlmtAndPub_of_legacy J out bidderExt pub plmt fbExt.PublisherId h1 h2' hp hq,
    hs.symm⟩

/-- When the extension object cannot be serialized the loop builds no request. -/
theorem makeRequestsLoop_of_reqExt_error (this : FacebookAdapter) (J : Json)
    (request : BidRequest) (msg : String)
    (hext : J.marshalReqExt ⟨this.platformId⟩ = .error msg) (imps : List Imp)
    (errs : List GoError) (reqs' : List RequestData) (errs' : List GoError)
    (h : makeRequestsLoop this J request requestHeaders imps [] errs = some (reqs', errs')) :
    reqs' = [] := by
  induction imps generalizing errs with
  | nil =>
    rw [makeRequestsLoop] at h
    simp only [List.length_nil, if_true, Option.some.injEq, Prod.mk.injEq] at h
    exact h.1.symm
  | cons imp imps ih =>
    rw [makeRequestsLoop] at h
    cases hx : extractPlmtAndPub J imp with
    | error e =>
      rw [hx] at h
      exact ih _ h
    | ok p =>
      obtain ⟨plmtId, pubId⟩ := p
      rw [hx] at h
      simp only [hext] at h
      exact ih _ h

/-- When the extension object can be serialized and the loop returns requests, it has
appended exactly one request per impression that gets past the parser, in the order of those
impressions, each built by the loop body for its impression. -/
theorem makeRequestsLoop_built (this : FacebookAdapter) (J : Json) (request : BidRequest)
    (ext : String) (hext : J.marshalReqExt ⟨this.platformId⟩ = .ok ext) (imps : List Imp)
    (reqs : List RequestData) (errs : List GoError)
    (reqs' : List RequestData) (errs' : List GoError)
    (h : makeRequestsLoop this J request requestHeaders imps reqs errs = some (reqs', errs')) :
    reqs' = [] ∨ ∃ built, reqs' = reqs ++ built ∧
      List.Forall₂ (fun imp rd => ∃ plmtId pubId fbreq,
        BuiltFor this J request imp plmtId pubId fbreq rd) (validImps J imps) built := by
  induction imps generalizing reqs errs with
  | nil =>
    rw [makeRequestsLoop] at h
    split_ifs at h
    · simp only [Option.some.injEq, Prod.mk.injEq] at h
      exact Or.inl h.1.symm
    · simp only [Option.some.injEq, Prod.mk.injEq] at h
      exact Or.inr ⟨[], by simp [h.1], by simp [validImps]⟩
  | cons imp imps ih =>
    rw [makeRequestsLoop] at h
    cases hx : extractPlmtAndPub J imp with
    | error e =>
      rw [hx] at h
      rw [validImps_cons_error J imp imps e hx]
      exact ih _ _ h
    | ok p =>
      obtain ⟨plmtId, pubId⟩ := p
      rw [hx] at h
      simp only [hext] at h
      cases hreq : perImpRequest request ext imp plmtId pubId with
      | none =>
        rw [hreq] at h
        simp at h
      | some fbreq =>
        rw [hreq] at h
        simp only at h
        cases hbody : J.marshalBidRequest fbreq with
        | error msg =>
          rw [hbody] at h
          simp only [Option.some.injEq, Prod.mk.injEq] at h
          exact Or.inl h.1.symm
        | ok body =>
          rw [hbody] at h
          simp only at h
          rcases ih _ _ h with hnil | ⟨built, hb, hf⟩
          · exact Or.inl hnil
          · right
            refine ⟨⟨"POST", this.URI, body, requestHeaders⟩ :: built, ?_, ?_⟩
            · rw [hb]
              simp
            · rw [validImps_cons_ok J imp imps _ hx]
              exact List.Forall₂.cons
                ⟨plmtId, pubId, fbreq, hx, ⟨ext, hext, hreq⟩, hbody, rfl, rfl, rfl⟩ hf

/-- When `MakeRequests` returns requests, they are, in order, the requests the loop body
builds for the impressions that get past the parser. -/
theorem MakeRequests_built (this : FacebookAdapter) (J : Json) (request : BidRequest)
    (reqs : List RequestData) (errs : List GoError)
    (h : MakeRequests this J request = some (reqs, errs)) (hne : reqs ≠ []) :
    List.Forall₂ (fun imp rd => ∃ plmtId pubId fbreq,
      BuiltFor this J request imp plmtId pubId fbreq rd) (validImps J request.Imp) reqs := by
  unfold MakeRequests at h
  split_ifs at h
  · simp only [Option.some.injEq, Prod.mk.injEq] at h
    exact absurd h.1.symm hne
  · cases hext : J.marshalReqExt ⟨this.platformId⟩ with
    | error msg =>
      exact absurd
        (makeRequestsLoop_of_reqExt_error this J request msg hext request.Imp [] reqs errs h)
        hne
    | ok ext =>
      rcases makeRequestsLoop_built this J request ext hext request.Imp [] [] reqs errs h with
        hnil | ⟨built, hb, hf⟩
      · exact absurd hnil hne
      · rw [hb]
        simpa using hf

/-- Claim C19.  Every impression whose decoded placementId has exactly one underscore, also
when a token is empty, gets past the parser, and the pair the parser returns gives back the
decoded placementId as `publisherId_placementId`.  When `MakeRequests` returns requests,
they are, in order, one per impression that gets past the parser, and the copy serialized
for such an impression carries the tag identifier `publisherId_placementId` of the parsed
pair, whose placementId has no underscore; for an impression in the legacy format that tag
identifier is, character for character, the decoded placementId.  And whenever the parser
succeeds, in either format, the placementId it returns has no underscore. -/
theorem MakeRequests_legacy_tagId_round_trip (this : FacebookAdapter) (J : Json)
    (request : BidRequest) (reqs : List RequestData) (errs : List GoError)
    (h : MakeRequests this J request = some (reqs, errs)) (hne : reqs ≠ []) :
    (∀ imp ∈ request.Imp, ∀ bidderExt fbExt,
      J.unmarshalExtImpBidder imp.Ext = .ok bidderExt →
      J.unmarshalExtImpFacebook bidderExt.Bidder = .ok fbExt →
      fbExt.PlacementId.data.count '_' = 1 →
      imp ∈ validImps J request.Imp ∧
      ∃ plmtId pubId, extractPlmtAndPub J imp = .ok (plmtId, pubId) ∧
        pubId ++ "_" ++ plmtId = fbExt.PlacementId) ∧
    List.Forall₂ (fun imp rd => ∃ plmtId pubId ext fbreq,
        extractPlmtAndPub J imp = .ok (plmtId, pubId) ∧
        perImpRequest request ext imp plmtId pubId = some fbreq ∧
        J.marshalBidRequest fbreq = .ok rd.Body ∧
        fbreq.Imp.map (fun i => i.TagID) = [pubId ++ "_" ++ plmtId] ∧
        '_' ∉ plmtId.data ∧
        ∀ bidderExt fbExt,
          J.unmarshalExtImpBidder imp.Ext = .ok bidderExt →
          J.unmarshalExtImpFacebook bidderExt.Bidder = .ok fbExt →
          fbExt.PlacementId.data.count '_' = 1 →
          fbreq.Imp.map (fun i => i.TagID) = [fbExt.PlacementId])
      (validImps J request.Imp) reqs ∧
    (∀ out plmtId pubId, extractPlmtAndPub J out = .ok (plmtId, pubId) →
      '_' ∉ plmtId.data) := by
  refine ⟨?_, ?_, fun out plmtId pubId hx =>
    extractPlmtAndPub_placementId_no_underscore J out plmtId pubId hx⟩
  · intro imp himp bidderExt fbExt h1 h2 hone
    obtain ⟨plmtId, pubId, hx, hrt⟩ :=
      extractPlmtAndPub_legacy_round_trip J imp bidderExt fbExt h1 h2 hone
    refine ⟨?_, plmtId, pubId, hx, hrt⟩
    simp [validImps, List.mem_filter, himp, hx]
  · refine (MakeRequests_built this J request reqs errs h hne).imp ?_
    rintro imp rd ⟨plmtId, pubId, fbreq, hx, ⟨ext, _, hreq⟩, hb, _⟩
    obtain ⟨hImp, _⟩ := perImpRequest_shape request ext imp plmtId pubId fbreq hreq
    have htag : fbreq.Imp.map (fun i => i.TagID) = [pubId ++ "_" ++ plmtId] := by
      rw [hImp]
      rfl
    refine ⟨plmtId, pubId, ext, fbreq, hx, hreq, hb, htag,
      extractPlmtAndPub_placementId_no_underscore J imp plmtId pubId hx, ?_⟩
    intro bidderExt fbExt h1 h2 hone
    obtain ⟨plmtId', pubId', hx', hrt⟩ :=
      extractPlmtAndPub_legacy_round_trip J imp bidderExt fbExt h1 h2 hone
    rw [hx] at hx'
    simp only [Except.ok.injEq, Prod.mk.injEq] at hx'
    rw [htag, hx'.1, hx'.2, hrt]

/-- The witness of C19: a request with the placementId "123_abc" and the placementId "_abc",
whose first token is empty; the two requests returned carry these as tag identifiers. -/
theorem MakeRequests_legacy_tagId_round_trip_witness :
    MakeRequests sampleAdapter legacyJson legacyRequest =
      some ([⟨"POST", "https://an.facebook.com/placementbid.ortb", "123_abc", requestHeaders⟩,
        ⟨"POST", "https://an.facebook.com/placementbid.ortb", "_abc", requestHeaders⟩], []) ∧
    (∀ imp ∈ legacyRequest.Imp, ∀ bidderExt fbExt,
      legacyJson.unmarshalExtImpBidder imp.Ext = .ok bidderExt →
      legacyJson.unmarshalExtImpFacebook bidderExt.Bidder = .ok fbExt →
      fbExt.PlacementId.data.count '_' = 1 →
      imp ∈ validImps legacyJson legacyRequest.Imp ∧
      ∃ plmtId pubId, extractPlmtAndPub legacyJson imp = .ok (plmtId, pubId) ∧
        pubId ++ "_" ++ plmtId = fbExt.PlacementId) ∧
    List.Forall₂ (fun (imp : Imp) (rd : RequestData) => ∃ plmtId pubId ext fbreq,
        extractPlmtAndPub legacyJson imp = .ok (plmtId, pubId) ∧
        perImpRequest legacyRequest ext imp plmtId pubId = some fbreq ∧
        legacyJson.marshalBidRequest fbreq = .ok rd.Body ∧
        fbreq.Imp.map (fun i => i.TagID) = [pubId ++ "_" ++ plmtId] ∧
        '_' ∉ plmtId.data ∧
        ∀ bidderExt fbExt,
          legacyJson.unmarshalExtImpBidder imp.Ext = .ok bidderExt →
          legacyJson.unmarshalExtImpFacebook bidderExt.Bidder = .ok fbExt →
          fbExt.PlacementId.data.count '_' = 1 →
          fbreq.Imp.map (fun i => i.TagID) = [fbExt.PlacementId])
      (validImps legacyJson legacyRequest.Imp)
      [⟨"POST", "https://an.facebook.com/placementbid.ortb", "123_abc", requestHeaders⟩,
        ⟨"POST", "https://an.facebook.com/placementbid.ortb", "_abc", requestHeaders⟩] ∧
    (∀ out plmtId pubId, extractPlmtAndPub legacyJson out = .ok (plmtId, pubId) →
      '_' ∉ plmtId.data) :=
  ⟨by decide,
    MakeRequests_legacy_tagId_round_trip sampleAdapter legacyJson legacyRequest
      [⟨"POST", "https://an.facebook.com/placementbid.ortb", "123_abc", requestHeaders⟩,
        ⟨"POST", "https://an.facebook.com/placementbid.ortb", "_abc", requestHeaders⟩] []
      (by decide) (by decide)⟩

/-! ## The memory of the inbound request -/

/-- A cell keeps its address and value when cells are appended. -/
theorem getElem?_append_of_eq_some {α : Type} (l extra : List α) (i : Nat) (v : α)
    (h : l[i]? = some v) : (l ++ extra)[i]? = some v := by
  obtain ⟨hi, _⟩ := List.getElem?_eq_some.mp h
  rw [List.getElem?_append_left hi]
  exact h

theorem loadPtr_append {α : Type} (cells extra : List α) (ptr : Option Nat) (v : Option α)
    (h : loadPtr cells ptr = some v) : loadPtr (cells ++ extra) ptr = some v := by
  cases ptr with
  | none => exact h
  | some a =>
    simp only [loadPtr] at h ⊢
    cases hc : cells[a]? with
    | none => simp [hc] at h
    | some c =>
      rw [getElem?_append_of_eq_some cells extra a c hc]
      simpa [hc] using h

theorem Memory.Extends.refl (mem : Memory) : mem.Extends mem :=
  ⟨rfl, ⟨[], by simp⟩, ⟨[], by simp⟩, ⟨[], by simp⟩⟩

theorem Memory.Extends.trans {m1 m2 m3 : Memory} (h12 : m1.Extends m2) (h23 : m2.Extends m3) :
    m1.Extends m3 := by
  obtain ⟨hr, ⟨ea, ha⟩, ⟨es, hs⟩, ⟨ei, hi⟩⟩ := h12
  obtain ⟨hr', ⟨ea', ha'⟩, ⟨es', hs'⟩, ⟨ei', hi'⟩⟩ := h23
  refine ⟨by rw [hr', hr], ⟨ea ++ ea', ?_⟩, ⟨es ++ es', ?_⟩, ⟨ei ++ ei', ?_⟩⟩
  · rw [ha', ha, List.append_assoc]
  · rw [hs', hs, List.append_assoc]
  · rw [hi', hi, List.append_assoc]

/-- What it means for a `BidRequestRef` to stand for a request. -/
theorem Memory.load_eq_some_iff (mem : Memory) (r : BidRequestRef) (value : BidRequest) :
    mem.load r = some value ↔
      mem.impArrays[r.Imp]? = some value.Imp ∧
      loadPtr mem.sites r.Site = some value.Site ∧
      loadPtr mem.apps r.App = some value.App ∧
      value.Ext = r.Ext ∧ value.rest = r.rest := by
  obtain ⟨vi, vs, va, ve, vr⟩ := value
  unfold Memory.load
  cases h1 : mem.impArrays[r.Imp]? with
  | none => simp
  | some imps =>
    cases h2 : loadPtr mem.sites r.Site with
    | none => simp
    | some site =>
      cases h3 : loadPtr mem.apps r.App with
      | none => simp
      | some app =>
        simp only [Option.some.injEq, BidRequest.mk.injEq]
        constructor
        · rintro ⟨rfl, rfl, rfl, rfl, rfl⟩
          exact ⟨rfl, rfl, rfl, rfl, rfl⟩
        · rintro ⟨rfl, rfl, rfl, rfl, rfl⟩
          exact ⟨rfl, rfl, rfl, rfl, rfl⟩

/-- A request read from the memory reads the same from a memory that extends it. -/
theorem Memory.load_of_extends {earlier later : Memory} (h : earlier.Extends later)
    (r : BidRequestRef) (value : BidRequest) (hload : earlier.load r = some value) :
    later.load r = some value := by
  obtain ⟨_, ⟨ea, ha⟩, ⟨es, hs⟩, ⟨ei, hi⟩⟩ := h
  rw [Memory.load_eq_some_iff] at hload ⊢
  obtain ⟨h1, h2, h3, h4, h5⟩ := hload
  refine ⟨?_, ?_, ?_, h4, h5⟩
  · rw [hi]
    exact getElem?_append_of_eq_some _ _ _ _ h1
  · rw [hs]
    exact loadPtr_append _ _ _ _ h2
  · rw [ha]
    exact loadPtr_append _ _ _ _ h3

theorem loadPtr_some_iff {α : Type} (cells : List α) (a : Nat) (v : Option α) :
    loadPtr cells (some a) = some v ↔ ∃ c, cells[a]? = some c ∧ v = some c := by
  simp only [loadPtr]
  cases hc : cells[a]? with
  | none => simp
  | some c =>
    simp only [Option.some.injEq, exists_eq_left']
    exact eq_comm

theorem loadPtr_none_iff {α : Type} (cells : List α) (v : Option α) :
    loadPtr cells none = some v ↔ v = none := by
  simp only [loadPtr, Option.some.injEq]
  exact eq_comm

/-- Lines 65-82 over the memory do what they do on values: they stop on the nil dereference
in the same cases, and otherwise leave a memory that extends the one before, in which the
local copy of the request stands for the copy built on values. -/
theorem perImpRequestMem_spec (mem : Memory) (r : BidRequestRef) (value : BidRequest)
    (hload : mem.load r = some value) (ext : String) (imp : Imp) (plmtId pubId : String) :
    (perImpRequest value ext imp plmtId pubId = none ∧
      perImpRequestMem mem r ext imp plmtId pubId = none) ∨
    ∃ fbreq mem' r', perImpRequest value ext imp plmtId pubId = some fbreq ∧
      perImpRequestMem mem r ext imp plmtId pubId = some (mem', r') ∧
      mem.Extends mem' ∧ mem'.load r' = some fbreq := by
  rw [Memory.load_eq_some_iff] at hload
  obtain ⟨hI, hS, hA, hE, hR⟩ := hload
  obtain ⟨vi, vs, va, ve, vr⟩ := value
  obtain ⟨ri, rs, ra, re, rr⟩ := r
  simp only at hI hS hA hE hR
  subst hE hR
  cases ra with
  | some a =>
    obtain ⟨app, happ, rfl⟩ := (loadPtr_some_iff _ _ _).mp hA
    right
    refine ⟨⟨[⟨pubId ++ "_" ++ plmtId, none, imp.rest⟩], vs,
        some ⟨some ⟨pubId, []⟩, app.rest⟩, some ext, vr⟩,
      ⟨mem.requests, mem.apps ++ [⟨some ⟨pubId, []⟩, app.rest⟩], mem.sites,
        mem.impArrays ++ [[⟨pubId ++ "_" ++ plmtId, none, imp.rest⟩]]⟩,
      ⟨mem.impArrays.length, rs, some mem.apps.length, some ext, vr⟩, rfl, ?_, ?_, ?_⟩
    · simp only [perImpRequestMem, injectPublisherMem, happ]
    · exact ⟨rfl, ⟨_, rfl⟩, ⟨[], by simp⟩, ⟨_, rfl⟩⟩
    · rw [Memory.load_eq_some_iff]
      refine ⟨?_, ?_, ?_, rfl, rfl⟩
      · simp
      · exact hS
      · simp [loadPtr]
  | none =>
    have hva : va = none := (loadPtr_none_iff _ _).mp hA
    subst hva
    cases rs with
    | none =>
      have hvs : vs = none := (loadPtr_none_iff _ _).mp hS
      subst hvs
      left
      exact ⟨rfl, rfl⟩
    | some a =>
      obtain ⟨site, hsite, rfl⟩ := (loadPtr_some_iff _ _ _).mp hS
      right
      refine ⟨⟨[⟨pubId ++ "_" ++ plmtId, none, imp.rest⟩],
          some ⟨some ⟨pubId, []⟩, site.rest⟩, none, some ext, vr⟩,
        ⟨mem.requests, mem.apps, mem.sites ++ [⟨some ⟨pubId, []⟩, site.rest⟩],
          mem.impArrays ++ [[⟨pubId ++ "_" ++ plmtId, none, imp.rest⟩]]⟩,
        ⟨mem.impArrays.length, some mem.sites.length, none, some ext, vr⟩, rfl, ?_, ?_, ?_⟩
      · simp only [perImpRequestMem, injectPublisherMem, hsite]
      · exact ⟨rfl, ⟨[], by simp⟩, ⟨_, rfl⟩, ⟨_, rfl⟩⟩
      · rw [Memory.load_eq_some_iff]
        refine ⟨?_, ?_, ?_, rfl, rfl⟩
        · simp
        · simp [loadPtr]
        · rfl

/-- The loop over the memory returns what the loop on values returns for the request the
memory holds, and leaves a memory that extends the one it started from. -/
theorem makeRequestsLoopMem_spec (this : FacebookAdapter) (J : Json) (request : Nat)
    (r : BidRequestRef) (value : BidRequest) (n : Nat) :
    ∀ (i : Nat) (mem : Memory) (reqs : List RequestData) (errs : List GoError),
      mem.requests[request]? = some r → mem.load r = some value →
      n + i = value.Imp.length →
      (makeRequestsLoopMem this J request r.Imp requestHeaders n i mem reqs errs).map
          (fun o => o.2) =
        makeRequestsLoop this J value requestHeaders (value.Imp.drop i) reqs errs ∧
      ∀ mem' reqs' errs',
        makeRequestsLoopMem this J request r.Imp requestHeaders n i mem reqs errs =
          some (mem', reqs', errs') → mem.Extends mem' := by
  induction n with
  | zero =>
    intro i mem reqs errs _ _ hlen
    have hdrop : value.Imp.drop i = [] := List.drop_of_length_le (by omega)
    rw [hdrop, makeRequestsLoopMem, makeRequestsLoop]
    constructor
    · split_ifs <;> rfl
    · intro mem' reqs' errs' h
      split_ifs at h
      · simp only [Option.some.injEq, Prod.mk.injEq] at h
        rw [← h.1]
        exact Memory.Extends.refl mem
      · simp only [Option.some.injEq, Prod.mk.injEq] at h
        rw [← h.1]
        exact Memory.Extends.refl mem
  | succ n ih =>
    intro i mem reqs errs hreq hload hlen
    have hi : i < value.Imp.length := by omega
    have harr : mem.impArrays[r.Imp]? = some value.Imp :=
      ((Memory.load_eq_some_iff mem r value).mp hload).1
    have himp : (mem.impArrays[r.Imp]?).bind (fun a => a[i]?) = some value.Imp[i] := by
      rw [harr]
      simp [List.getElem?_eq_getElem hi]
    have hnext : n + (i + 1) = value.Imp.length := by omega
    rw [List.drop_eq_getElem_cons hi, makeRequestsLoopMem, makeRequestsLoop]
    simp only [himp, hreq]
    cases hx : extractPlmtAndPub J value.Imp[i] with
    | error e => exact ih (i + 1) mem reqs (errs ++ [e]) hreq hload hnext
    | ok p =>
      obtain ⟨plmtId, pubId⟩ := p
      simp only
      cases hext : J.marshalReqExt ⟨this.platformId⟩ with
      | error msg => exact ih (i + 1) mem reqs (errs ++ [.jsonError msg]) hreq hload hnext
      | ok ext =>
        simp only
        rcases perImpRequestMem_spec mem r value hload ext value.Imp[i] plmtId pubId with
          ⟨hp, hm⟩ | ⟨fbreq, mem1, r1, hp, hm, hextends, hl⟩
        · simp only [hp, hm]
          exact ⟨rfl, fun _ _ _ h => by cases h⟩
        · simp only [hp, hm, hl]
          cases hbody : J.marshalBidRequest fbreq with
          | error msg =>
            refine ⟨rfl, ?_⟩
            intro mem' reqs' errs' h
            simp only [Option.some.injEq, Prod.mk.injEq] at h
            rw [← h.1]
            exact hextends
          | ok body =>
            have hreq1 : mem1.requests[request]? = some r := by
              rw [hextends.1]
              exact hreq
            have hload1 : mem1.load r = some value :=
              Memory.load_of_extends hextends r value hload
            obtain ⟨hout, hmem⟩ := ih (i + 1) mem1
              (reqs ++ [⟨"POST", this.URI, body, requestHeaders⟩]) errs hreq1 hload1 hnext
            exact ⟨hout, fun mem' reqs' errs' h => hextends.trans (hmem mem' reqs' errs' h)⟩

/-- `MakeRequests` over the memory returns what `MakeRequests` on values returns for the
request the memory holds, and leaves a memory that extends the one it started from. -/
theorem MakeRequestsMem_spec (this : FacebookAdapter) (J : Json) (mem : Memory)
    (request : Nat) (r : BidRequestRef) (value : BidRequest)
    (hreq : mem.requests[request]? = some r) (hload : mem.load r = some value) :
    (MakeRequestsMem this J mem request).map (fun o => o.2) = MakeRequests this J value ∧
    ∀ mem' reqs errs, MakeRequestsMem this J mem request = some (mem', reqs, errs) →
      mem.Extends mem' := by
  have harr : mem.impArrays[r.Imp]? = some value.Imp :=
    ((Memory.load_eq_some_iff mem r value).mp hload).1
  unfold MakeRequestsMem MakeRequests
  simp only [hreq, harr]
  split_ifs with h0
  · refine ⟨rfl, ?_⟩
    intro mem' reqs errs h
    simp only [Option.some.injEq, Prod.mk.injEq] at h
    rw [← h.1]
    exact Memory.Extends.refl mem
  · have := makeRequestsLoopMem_spec this J request r value value.Imp.length 0 mem [] []
      hreq hload (by simp)
    simpa using this

/-- Claim C14.  Run over a memory that holds the inbound request, `MakeRequests` returns
the requests and errors that it returns on the value of that request, and leaves every cell
the memory held at its address with its value: the request itself (its extension and its
other fields), the backing array of its impressions (each impression with its tagId and
extension), and the `App` and `Site` it points to with their publishers; the inbound
request still reads as the same value.  Each request returned is the serialization of a
copy made from the value of the inbound request and one of its impressions alone. -/
theorem MakeRequestsMem_inbound_unchanged (this : FacebookAdapter) (J : Json) (mem : Memory)
    (request : Nat) (r : BidRequestRef) (value : BidRequest)
    (hreq : mem.requests[request]? = some r) (hload : mem.load r = some value) :
    (MakeRequestsMem this J mem request).map (fun o => o.2) = MakeRequests this J value ∧
    ∀ mem' reqs errs, MakeRequestsMem this J mem request = some (mem', reqs, errs) →
      mem'.requests = mem.requests ∧
      mem'.requests[request]? = some r ∧
      mem'.impArrays[r.Imp]? = some value.Imp ∧
      loadPtr mem'.apps r.App = some value.App ∧
      loadPtr mem'.sites r.Site = some value.Site ∧
      mem'.load r = some value ∧
      (∀ (a : Nat) (v : App), mem.apps[a]? = some v → mem'.apps[a]? = some v) ∧
      (∀ (a : Nat) (v : Site), mem.sites[a]? = some v → mem'.sites[a]? = some v) ∧
      (∀ (a : Nat) (v : List Imp),
        mem.impArrays[a]? = some v → mem'.impArrays[a]? = some v) ∧
      ∀ rd ∈ reqs, ∃ imp ∈ value.Imp, ∃ plmtId pubId ext fbreq,
        extractPlmtAndPub J imp = .ok (plmtId, pubId) ∧
        perImpRequest value ext imp plmtId pubId = some fbreq ∧
        J.marshalBidRequest fbreq = .ok rd.Body := by
  obtain ⟨hout, hmem⟩ := MakeRequestsMem_spec this J mem request r value hreq hload
  refine ⟨hout, ?_⟩
  intro mem' reqs errs hrun
  have hext := hmem mem' reqs errs hrun
  have hload' : mem'.load r = some value := Memory.load_of_extends hext r value hload
  obtain ⟨hI, hS, hA, _, _⟩ := (Memory.load_eq_some_iff mem' r value).mp hload'
  obtain ⟨hr, ⟨ea, ha⟩, ⟨es, hs⟩, ⟨ei, hi⟩⟩ := hext
  have hpure : MakeRequests this J value = some (reqs, errs) := by
    rw [← hout, hrun]
    rfl
  refine ⟨hr, by rw [hr]; exact hreq, hI, hA, hS, hload', ?_, ?_, ?_, ?_⟩
  · intro a v h
    rw [ha]
    exact getElem?_append_of_eq_some _ _ _ _ h
  · intro a v h
    rw [hs]
    exact getElem?_append_of_eq_some _ _ _ _ h
  · intro a v h
    rw [hi]
    exact getElem?_append_of_eq_some _ _ _ _ h
  · intro rd hrd
    obtain ⟨imp, himp, plmtId, pubId, fbreq, hx, ⟨ext, _, hp⟩, hb, _⟩ :=
      MakeRequests_sound this J value reqs errs hpure rd hrd
    exact ⟨imp, himp, plmtId, pubId, ext, fbreq, hx, hp, hb⟩

/-- The witness of C14: the request at address 0 of `sampleMemory`, which shares its `App`
and its impressions with the request at address 1. -/
theorem MakeRequestsMem_inbound_unchanged_witness :
    (sampleMemory.requests[0]? = some ⟨0, none, some 0, some "inbound", [("id", "r")]⟩ ∧
      sampleMemory.load ⟨0, none, some 0, some "inbound", [("id", "r")]⟩ =
        some sampleAppRequest ∧
      MakeRequestsMem sampleAdapter sampleJson sampleMemory 0 =
        some (sampleMemoryAfter,
          [⟨"POST", "https://an.facebook.com/placementbid.ortb", "123_abc", requestHeaders⟩],
          [.BadInput "invalid character"])) ∧
    (MakeRequestsMem sampleAdapter sampleJson sampleMemory 0).map (fun o => o.2) =
      MakeRequests sampleAdapter sampleJson sampleAppRequest ∧
    sampleMemoryAfter.requests = sampleMemory.requests ∧
    sampleMemoryAfter.load ⟨0, none, some 0, some "inbound", [("id", "r")]⟩ =
      some sampleAppRequest :=
  ⟨⟨by decide, by decide, by decide⟩,
    (MakeRequestsMem_inbound_unchanged sampleAdapter sampleJson sampleMemory 0
      ⟨0, none, some 0, some "inbound", [("id", "r")]⟩ sampleAppRequest
      (by decide) (by decide)).1,
    ((MakeRequestsMem_inbound_unchanged sampleAdapter sampleJson sampleMemory 0
      ⟨0, none, some 0, some "inbound", [("id", "r")]⟩ sampleAppRequest
      (by decide) (by decide)).2 sampleMemoryAfter
      [⟨"POST", "https://an.facebook.com/placementbid.ortb", "123_abc", requestHeaders⟩]
      [.BadInput "invalid character"] (by decide)).1,
    ((MakeRequestsMem_inbound_unchanged sampleAdapter sampleJson sampleMemory 0
      ⟨0, none, some 0, some "inbound", [("id", "r")]⟩ sampleAppRequest
      (by decide) (by decide)).2 sampleMemoryAfter
      [⟨"POST", "https://an.facebook.com/placementbid.ortb", "123_abc", requestHeaders⟩]
      [.BadInput "invalid character"] (by decide)).2.2.2.2.2.1⟩

end AudienceNetwork
